import Mathlib

/-!
Verification of the localstorage-slim core (`src/ls.ts`) against its
specification.

Modelling conventions (shallow embedding):

* A JavaScript string is a list of UTF-16 code units, `JStr := List Nat`
  (a JS engine keeps every unit below 2^16; where arithmetic on units
  matters the theorems carry that bound explicitly).
* JSON-serializable values are the inductive `JVal`; numbers are modelled
  as `Int` (the float-specific behaviour of JS numbers is not relied on by
  any claim under verification).
* `JSON.stringify` / `JSON.parse` are host-provided external collaborators;
  they are modelled by the executable pair `strV` / `parseJson` over the
  whitespace-free JSON grammar that `strV` emits.  String escaping follows
  `JSON.stringify` exactly (`\"`, `\\`, the shorthand control escapes and
  `\u00xy` for the other control characters); lone surrogates, which a
  well-formed `JSON.stringify` also escapes, are emitted raw, and every
  theorem whose meaning depends on the emitted units excludes surrogates
  explicitly.  `parseJson` requires the whole input to parse, as
  `JSON.parse` does.
* `localStorage` is an association list from key to stored string, in
  insertion order, with the operations the library uses (`getItem`,
  `setItem`, `removeItem`, `Object.keys`, `clear`).
* `Date.now()` is an explicit `now : Int` parameter (milliseconds).
* The availability guard `supportsLS()` is assumed to report "available"
  (the claims under verification are all about behaviour when the store
  is usable); consequently the one-shot `flush()` on first use, which
  only touches the pre-existing store once per process, is not modelled.
* The `encrypter` / `decrypter` configuration fields are fixed to the
  library's default `obfus` pair, which is what every claim under
  verification is about.
-/

namespace LS

/-- A JavaScript string: its UTF-16 code units. -/
abbrev JStr := List Nat

/-- `String.fromCharCode` applies ToUint16 to its argument. -/
def toUint16 (i : Int) : Nat := (i % 65536).toNat

/-- Is this code unit a high (leading) surrogate? -/
def isHighSurr (u : Nat) : Bool := 55296 ≤ u && u ≤ 56319

/-- Is this code unit a low (trailing) surrogate? -/
def isLowSurr (u : Nat) : Bool := 56320 ≤ u && u ≤ 57343

/-- Model of `[...s].map(x => x.charCodeAt(0))` for a JS string `s`: string
    spread iterates code points (a surrogate pair is one element), and
    `charCodeAt(0)` then yields only the first code unit of each element,
    dropping the low half of every surrogate pair. -/
def spreadFirstUnits : JStr → List Nat
  | [] => []
  | [u] => [u]
  | u :: u2 :: rest =>
    if isHighSurr u && isLowSurr u2 then u :: spreadFirstUnits rest
    else u :: spreadFirstUnits (u2 :: rest)

/-- A JSON-serializable value (JS numbers modelled as integers). -/
inductive JVal where
  | jnull
  | jbool (b : Bool)
  | jnum (n : Int)
  | jstr (s : JStr)
  | jarr (xs : List JVal)
  | jobj (fs : List (JStr × JVal))

/-! ### `JSON.stringify` model -/

/-- The lowercase hexadecimal digit character for `d < 16`. -/
def hexDig (d : Nat) : Nat := if d < 10 then 48 + d else 87 + d

/-- One string code unit, escaped exactly as `JSON.stringify` escapes
    it: `\"` and `\\`, the shorthand escapes `\b \t \n \f \r`, and
    `\u00xy` (lowercase hex) for the remaining control characters below
    U+0020.  (Lone surrogates, which a well-formed `JSON.stringify`
    also escapes, are emitted raw here; every theorem whose meaning
    depends on the emitted units excludes surrogates explicitly.) -/
def escU (c : Nat) : List Nat :=
  if c = 34 then [92, 34]
  else if c = 92 then [92, 92]
  else if c = 8 then [92, 98]
  else if c = 9 then [92, 116]
  else if c = 10 then [92, 110]
  else if c = 12 then [92, 102]
  else if c = 13 then [92, 114]
  else if c < 32 then [92, 117, 48, 48, hexDig (c / 16), hexDig (c % 16)]
  else [c]

/-- The body of a JSON string literal (no surrounding quotes). -/
def escBody (s : JStr) : List Nat := s.flatMap escU

/-- A JSON string literal: `"` body `"`. -/
def strLit (s : JStr) : List Nat := 34 :: (escBody s ++ [34])

/-- Decimal digit characters of `n`, most significant first, before `acc`.
    The first argument is fuel (any `fuel > n` is enough), keeping the
    recursion structural so that terms evaluate by `rfl`. -/
def natRepAux : Nat → Nat → List Nat → List Nat
  | 0, _, acc => acc
  | fuel + 1, n, acc =>
    if n < 10 then (48 + n) :: acc
    else natRepAux fuel (n / 10) ((48 + n % 10) :: acc)

/-- Decimal digit characters of a natural number. -/
def natRep (n : Nat) : List Nat := natRepAux (n + 1) n []

/-- Decimal representation of an integer: optional `-`, then digits. -/
def intRep (i : Int) : List Nat :=
  (if i < 0 then [45] else []) ++ natRep i.natAbs

mutual
/-- `JSON.stringify`, emitting the code units of the serialized value
    (no whitespace, which is what the real function emits by default). -/
def strV : JVal → List Nat
  | .jnull => [110, 117, 108, 108]
  | .jbool true => [116, 114, 117, 101]
  | .jbool false => [102, 97, 108, 115, 101]
  | .jnum n => intRep n
  | .jstr s => strLit s
  | .jarr xs => 91 :: strItems xs
  | .jobj fs => 123 :: strFields fs

/-- Array elements, comma separated, ending with the closing `]`. -/
def strItems : List JVal → List Nat
  | [] => [93]
  | [x] => strV x ++ [93]
  | x :: y :: xs => strV x ++ 44 :: strItems (y :: xs)

/-- Object members, comma separated, ending with the closing `}`. -/
def strFields : List (JStr × JVal) → List Nat
  | [] => [125]
  | [(k, v)] => strLit k ++ 58 :: (strV v ++ [125])
  | (k, v) :: f :: fs => strLit k ++ 58 :: (strV v ++ 44 :: strFields (f :: fs))
end

/-! ### `JSON.parse` model -/

/-- Is this code unit a decimal digit? -/
def isDigitU (c : Nat) : Bool := 48 ≤ c && c ≤ 57

/-- The natural number denoted by a most-significant-first digit run. -/
def digitsToNat (ds : List Nat) : Nat := ds.foldl (fun a c => a * 10 + (c - 48)) 0

/-- Parse a leading run of decimal digits (at least one). -/
def parseNatU (s : List Nat) : Option (Nat × List Nat) :=
  let ds := s.takeWhile isDigitU
  if ds.isEmpty then none else some (digitsToNat ds, s.drop ds.length)

/-- The value of a hexadecimal digit character (either case), if any. -/
def hexVal (c : Nat) : Option Nat :=
  if 48 ≤ c ∧ c ≤ 57 then some (c - 48)
  else if 97 ≤ c ∧ c ≤ 102 then some (c - 87)
  else if 65 ≤ c ∧ c ≤ 70 then some (c - 55)
  else none

/-- The code unit denoted by a one-character escape `\c`, if `c` is one
    of the short escape characters JSON allows. -/
def unescC (c : Nat) : Option Nat :=
  if c = 34 then some 34
  else if c = 92 then some 92
  else if c = 47 then some 47
  else if c = 98 then some 8
  else if c = 116 then some 9
  else if c = 110 then some 10
  else if c = 102 then some 12
  else if c = 114 then some 13
  else none

/-- Parse a JSON string body after the opening quote, undoing `escU`:
    a closing quote ends the string, `\uXXXX` decodes four hex digits,
    `\c` decodes a short escape, and any other unit stands for itself. -/
def parseStrBody : List Nat → Option (JStr × List Nat)
  | 34 :: rest => some ([], rest)
  | 92 :: 117 :: a :: b :: c :: d :: rest =>
    match hexVal a, hexVal b, hexVal c, hexVal d with
    | some va, some vb, some vc, some vd =>
      (parseStrBody rest).map (fun p => ((((va * 16 + vb) * 16 + vc) * 16 + vd) :: p.1, p.2))
    | _, _, _, _ => none
  | 92 :: c :: rest =>
    match unescC c with
    | some u => (parseStrBody rest).map (fun p => (u :: p.1, p.2))
    | none => none
  | c :: rest => (parseStrBody rest).map (fun p => (c :: p.1, p.2))
  | [] => none

/-- Kind of parse request: a value, array items (after `[`), or object
    members (after `{`). -/
inductive PKind where
  | pval
  | pitems
  | pfields

/-- The recursive JSON parser, structural on its fuel.  Array items and
    object members are returned wrapped in `.jarr` / `.jobj`. -/
def parseP : Nat → PKind → List Nat → Option (JVal × List Nat)
  | 0, _, _ => none
  | fuel + 1, .pval, s =>
    match s with
    | 110 :: 117 :: 108 :: 108 :: rest => some (.jnull, rest)
    | 116 :: 114 :: 117 :: 101 :: rest => some (.jbool true, rest)
    | 102 :: 97 :: 108 :: 115 :: 101 :: rest => some (.jbool false, rest)
    | 34 :: rest => (parseStrBody rest).map (fun p => (.jstr p.1, p.2))
    | 91 :: rest => parseP fuel .pitems rest
    | 123 :: rest => parseP fuel .pfields rest
    | 45 :: rest => (parseNatU rest).map (fun p => (.jnum (-(p.1 : Int)), p.2))
    | c :: rest =>
      if isDigitU c then (parseNatU (c :: rest)).map (fun p => (.jnum (p.1 : Int), p.2))
      else none
    | [] => none
  | fuel + 1, .pitems, s =>
    match s with
    | 93 :: rest => some (.jarr [], rest)
    | _ =>
      match parseP fuel .pval s with
      | some (v, 44 :: rest) =>
        match parseP fuel .pitems rest with
        | some (.jarr xs, r) => some (.jarr (v :: xs), r)
        | _ => none
      | some (v, 93 :: rest) => some (.jarr [v], rest)
      | _ => none
  | fuel + 1, .pfields, s =>
    match s with
    | 125 :: rest => some (.jobj [], rest)
    | 34 :: rest =>
      match parseStrBody rest with
      | some (k, 58 :: rest2) =>
        match parseP fuel .pval rest2 with
        | some (v, 44 :: rest3) =>
          match parseP fuel .pfields rest3 with
          | some (.jobj fs, r) => some (.jobj ((k, v) :: fs), r)
          | _ => none
        | some (v, 125 :: rest3) => some (.jobj [(k, v)], rest3)
        | _ => none
      | _ => none
    | _ => none

/-- `JSON.parse`: the whole input must be consumed, otherwise the parse
    fails (a failure the caller observes as a thrown exception). -/
def parseJson (s : List Nat) : Option JVal :=
  match parseP (s.length + 1) .pval s with
  | some (v, []) => some v
  | _ => none

/-! ### The tiny obfuscator (`obfus` in `src/ls.ts`)

Encryption mode: `[...JSON.stringify(str)].map(x =>
String.fromCharCode(x.charCodeAt(0) + key)).join('')` — stringify, take
the first code unit of each code point, shift by the numeric secret
(ToUint16 wraps).  Decryption mode: shift each spread element back and
`JSON.parse` the result.  Spreading a non-iterable (number, boolean,
null, object) throws, and `charCodeAt` on a non-string element throws:
both are modelled as `none` (the callers in `set`/`get` sit inside
`try`/`catch`).  `''.charCodeAt(0)` is `NaN` and
`String.fromCharCode(NaN - key)` is the unit 0. -/

/-- The encryption direction of `obfus`, applied to a serializable value. -/
def obfusEnc (v : JVal) (key : Int) : JStr :=
  (spreadFirstUnits (strV v)).map (fun (u : Nat) => toUint16 ((u : Int) + key))

/-- The spread-then-shift-back step of `obfus`'s decryption direction:
    the code units of the string to be `JSON.parse`d, or `none` when the
    JS expression throws. -/
def obfusDecUnits (item : JVal) (key : Int) : Option (List Nat) :=
  match item with
  | .jstr s => some ((spreadFirstUnits s).map (fun (u : Nat) => toUint16 ((u : Int) - key)))
  | .jarr xs => xs.mapM (fun x =>
      match x with
      | .jstr [] => some 0
      | .jstr (u :: _) => some (toUint16 ((u : Int) - key))
      | _ => none)
  | _ => none

/-- The decryption direction of `obfus` (the library's `decrypter`):
    `none` models a thrown exception (non-iterable input, non-string
    array element, or a `JSON.parse` failure on the shifted-back text). -/
def decrypter (item : JVal) (key : Int) : Option JVal :=
  (obfusDecUnits item key).bind parseJson

/-- A code unit of a serialization is surrogate-safe for secret `S`:
    it is a genuine UTF-16 unit, it is not itself a surrogate (high or
    low), and its shifted image under `S` is not a surrogate either.
    Under this condition the obfuscation round-trip is exact, because
    neither the plaintext nor the ciphertext ever contains a surrogate
    pair for the string spread to collapse. -/
def surrFree (S : Int) (u : Nat) : Bool :=
  decide (u < 65536) && !isHighSurr u && !isLowSurr u
    && !isHighSurr (toUint16 ((u : Int) + S)) && !isLowSurr (toUint16 ((u : Int) + S))

/-! ### JS object property operations (used on parsed entries) -/

/-- Modelled from the spec: `isObject` lives in `helpers.ts`, which is
    not under `src/`; per the spec a stored entry is detected as
    TTL-wrapped only when it is a plain object (not null, not an array,
    not a primitive) carrying the sentinel field. -/
def isObjB : JVal → Bool
  | .jobj _ => true
  | _ => false

/-- Does a member list carry the given key? -/
def hasField : List (JStr × JVal) → JStr → Bool
  | [], _ => false
  | (k2, _) :: fs, k => if k2 = k then true else hasField fs k

/-- The value of the first member with the given key. -/
def getField : List (JStr × JVal) → JStr → Option JVal
  | [], _ => none
  | (k2, v) :: fs, k => if k2 = k then some v else getField fs k

/-- Property assignment on a member list: replace the first binding of
    the key, or append one. -/
def setField : List (JStr × JVal) → JStr → JVal → List (JStr × JVal)
  | [], k, x => [(k, x)]
  | (k2, v) :: fs, k, x => if k2 = k then (k, x) :: fs else (k2, v) :: setField fs k x

/-- `k in item` (only ever evaluated on objects here). -/
def jhas (item : JVal) (k : JStr) : Bool :=
  match item with
  | .jobj fs => hasField fs k
  | _ => false

/-- `item[k]` (on non-objects: `none`, i.e. JS `undefined`). -/
def jget (item : JVal) (k : JStr) : Option JVal :=
  match item with
  | .jobj fs => getField fs k
  | _ => none

/-- `item[k] = x` (a no-op on non-objects, which never happens here). -/
def jset (item : JVal) (k : JStr) (x : JVal) : JVal :=
  match item with
  | .jobj fs => .jobj (setField fs k x)
  | _ => item

/-- The reserved sentinel property name `APX = String.fromCharCode(0)`. -/
def APX : JStr := [0]

/-- The code units of the property name `ttl`. -/
def ttlField : JStr := [116, 116, 108]

/-- The JS comparison `Date.now() > item.ttl` on the (already parsed)
    `ttl` property: false when the property is absent or not a number
    (`NaN` comparisons are false).  JS would numerically coerce a
    numeric *string* there; no entry this library writes stores one, and
    that coercion is not modelled. -/
def jsGTnum (now : Int) : Option JVal → Bool
  | some (.jnum e) => decide (e < now)
  | _ => false

/-! ### The underlying `localStorage` (string-keyed, string-valued, in
insertion order) -/

/-- The underlying store: an association list in insertion order. -/
abbrev Store := List (JStr × JStr)

/-- `localStorage.getItem` (`none` = JS `null`). -/
def getItem (k : JStr) : Store → Option JStr
  | [] => none
  | (k2, v) :: st => if k2 = k then some v else getItem k st

/-- `localStorage.setItem`: overwrite in place, or append. -/
def setItem (k v : JStr) : Store → Store
  | [] => [(k, v)]
  | (k2, v2) :: st => if k2 = k then (k, v) :: st else (k2, v2) :: setItem k v st

/-- `localStorage.removeItem`. -/
def removeItem (k : JStr) : Store → Store
  | [] => []
  | (k2, v) :: st => if k2 = k then removeItem k st else (k2, v) :: removeItem k st

/-- `Object.keys(localStorage)`. -/
def storeKeys (st : Store) : List JStr := st.map Prod.fst

/-! ### Configuration and the three-way merge -/

/-- A per-call `ttl` override as JS sees it: absent (`undefined`),
    explicit `null`, the out-of-type value `false`, or a number. -/
inductive TtlOv where
  | undef
  | jsnull
  | fls
  | num (t : Int)

/-- A per-call `encrypt` override: absent, `false`, or `true`. -/
inductive EncOv where
  | undef
  | fls
  | tru

/-- A per-call `prefix` override: absent, explicit `null`, or a string. -/
inductive PfxOv where
  | undef
  | jsnull
  | str (p : JStr)

/-- The global (default) configuration `config` of `src/ls.ts`. -/
structure GlobalConfig where
  ttl : Option Int
  encrypt : Bool
  secret : Int
  pfx : Option JStr

/-- The module-load value of the global configuration. -/
def defaultConfig : GlobalConfig := ⟨none, false, 75, none⟩

/-- A per-call configuration override (`localConfig`).  The declared
    configuration shape (`types.ts`, not under `src/`) is modelled from
    the spec's configuration table.  `secret = none` means the field is
    absent (the spread keeps the global one); `decrypt` is the stray
    flag `get` consults, absent from the declared configuration type,
    hence `undefined` (falsy) unless passed. -/
structure LocalConfig where
  ttl : TtlOv
  encrypt : EncOv
  pfx : PfxOv
  secret : Option Int
  decrypt : Bool

/-- The empty override `{}`. -/
def emptyLC : LocalConfig := ⟨.undef, .undef, .undef, none, false⟩

/-- `localConfig.ttl === null ? null : localConfig.ttl || config.ttl`
    (`false` and `0` are falsy, so they fall back to the default). -/
def mergeTtl : TtlOv → Option Int → Option Int
  | .jsnull, _ => none
  | .undef, d => d
  | .fls, d => d
  | .num t, d => if t = 0 then d else some t

/-- `localConfig.encrypt === false ? false : localConfig.encrypt || config.encrypt`. -/
def mergeEncrypt : EncOv → Bool → Bool
  | .fls, _ => false
  | .tru, _ => true
  | .undef, d => d

/-- `localConfig.prefix === null ? null : localConfig.prefix || config.prefix`
    (the empty string is falsy). -/
def mergePfx : PfxOv → Option JStr → Option JStr
  | .jsnull, _ => none
  | .undef, d => d
  | .str p, d => if p = [] then d else some p

/-- The effective configuration `_conf` of one call. -/
structure EffConf where
  ttl : Option Int
  encrypt : Bool
  pfx : Option JStr
  secret : Int
  decrypt : Bool

/-- The `_conf` object built at the top of `set` and `get`. -/
def mergeConf (cfg : GlobalConfig) (lc : LocalConfig) : EffConf :=
  ⟨mergeTtl lc.ttl cfg.ttl, mergeEncrypt lc.encrypt cfg.encrypt,
   mergePfx lc.pfx cfg.pfx, lc.secret.getD cfg.secret, lc.decrypt⟩

/-- `if (_conf.prefix) key = prefix + key` (prepending the empty string,
    though falsy, is the identity, so no case split is needed). -/
def prefixKey (p : Option JStr) (k : JStr) : JStr :=
  match p with
  | some q => q ++ k
  | none => k

/-- `hasTTL = _conf.ttl && !isNaN(_conf.ttl) && _conf.ttl > 0`. -/
def hasTTLc : Option Int → Bool
  | some t => decide (0 < t)
  | none => false

/-! ### The five public operations -/

/-- `set(key, value, localConfig)`.  The logical value is `some v`; the
    argument `none` stands for a JS value `JSON.stringify` throws on
    (e.g. a circular structure) — the `try`/`catch` then reports `false`
    with the store untouched.  The result is `(succeeded, store)`. -/
def set (now : Int) (cfg : GlobalConfig) (key : JStr) (value : Option JVal)
    (lc : LocalConfig) (st : Store) : Bool × Store :=
  let c := mergeConf cfg lc
  match value with
  | none => (false, st)
  | some v =>
    let hasTTL := hasTTLc c.ttl
    let expiry : Int := now + c.ttl.getD 0 * 1000
    let val0 : JVal := if hasTTL then .jobj [(APX, v), (ttlField, .jnum expiry)] else v
    let val : JVal :=
      if c.encrypt then
        if hasTTL then jset val0 APX (.jstr (obfusEnc v c.secret))
        else .jstr (obfusEnc val0 c.secret)
      else val0
    (true, setItem (prefixKey c.pfx key) (strV val) st)

/-- The outcome of `get`: a returned value (`none` = JS `null`), or an
    exception out of the unguarded `JSON.parse` on a corrupt entry. -/
inductive GetRes where
  | thrown
  | val (v : Option JVal)

/-- `get(key, localConfig)`, returning the result and the store (which
    is mutated only by the lazy deletion of an expired entry). -/
def get (now : Int) (cfg : GlobalConfig) (key : JStr) (lc : LocalConfig)
    (st : Store) : GetRes × Store :=
  let c := mergeConf cfg lc
  let k := prefixKey c.pfx key
  match getItem k st with
  | none => (.val none, st)
  | some s =>
    if s = [] then (.val none, st)
    else
      match parseJson s with
      | none => (.thrown, st)
      | some item0 =>
        let hasTTL := isObjB item0 && jhas item0 APX
        let item : JVal :=
          if c.decrypt || c.encrypt then
            if hasTTL then
              match decrypter ((jget item0 APX).getD .jnull) c.secret with
              | some dec => jset item0 APX dec
              | none => item0
            else
              match decrypter item0 c.secret with
              | some dec => dec
              | none => item0
          else item0
        if !hasTTL then (.val (some item), st)
        else if jsGTnum now (jget item ttlField) then (.val none, removeItem k st)
        else (.val (jget item APX), st)

/-- One key of the `flush` sweep: skip non-prefix-matching keys, skip
    unreadable or unparseable entries, and delete a TTL-wrapped entry
    when it is expired or `force` is set. -/
def flushStep (now : Int) (force : Bool) (p : Option JStr) (acc : Store)
    (k : JStr) : Store :=
  let pass := match p with
    | some q => q.isPrefixOf k
    | none => true
  if !pass then acc
  else
    match getItem k acc with
    | none => acc
    | some s =>
      if s = [] then acc
      else
        match parseJson s with
        | none => acc
        | some item =>
          if (isObjB item && jhas item APX) && (jsGTnum now (jget item ttlField) || force)
          then removeItem k acc else acc

/-- `flush(force, localConfig)`: iterate a snapshot of the keys (only the
    prefix is merged from the configuration). -/
def flush (now : Int) (cfg : GlobalConfig) (force : Bool) (lc : LocalConfig)
    (st : Store) : Store :=
  (storeKeys st).foldl (flushStep now force (mergePfx lc.pfx cfg.pfx)) st

/-- `remove(key, localConfig)` (only the prefix is merged). -/
def remove (cfg : GlobalConfig) (key : JStr) (lc : LocalConfig) (st : Store) : Store :=
  removeItem (prefixKey (mergePfx lc.pfx cfg.pfx) key) st

/-- The exact condition under which the `flush` sweep deletes the entry
    `(k, s)`: prefix match, readable, parseable, TTL-wrapped, and
    expired-or-forced.  (A restatement of `flushStep`'s tests, used to
    characterize the sweep.) -/
def flushCond (now : Int) (force : Bool) (p : Option JStr) (k : JStr) (s : JStr) : Bool :=
  (match p with
    | some q => q.isPrefixOf k
    | none => true)
  && (if s = [] then false
      else match parseJson s with
        | some item => (isObjB item && jhas item APX) && (jsGTnum now (jget item ttlField) || force)
        | none => false)

/-- A concrete three-entry store exercising the sweep: a plain number,
    an expired TTL wrapper, and an unexpired TTL wrapper. -/
def sweepStore : Store :=
  [([97], strV (.jnum 7)),
   ([98], strV (.jobj [(APX, .jnull), (ttlField, .jnum 50)])),
   ([99], strV (.jobj [(APX, .jnull), (ttlField, .jnum 5000)]))]

/-- One key of the `clear` sweep: delete it when it carries the prefix. -/
def clearStep (q : JStr) (acc : Store) (k : JStr) : Store :=
  if q.isPrefixOf k then removeItem k acc else acc

/-- `clear(localConfig)`: with a truthy effective prefix, delete exactly
    the keys carrying it; otherwise `localStorage.clear()`. -/
def clear (cfg : GlobalConfig) (lc : LocalConfig) (st : Store) : Store :=
  match mergePfx lc.pfx cfg.pfx with
  | some q =>
    if q = [] then []
    else (storeKeys st).foldl (clearStep q) st
  | none => []

/-! ### Sizes (parser fuel bounds) -/

mutual
/-- A fuel bound for parsing one serialized value. -/
def jsizeV : JVal → Nat
  | .jnull => 1
  | .jbool _ => 1
  | .jnum _ => 1
  | .jstr _ => 1
  | .jarr xs => 1 + jsizeI xs
  | .jobj fs => 1 + jsizeF fs

/-- A fuel bound for parsing serialized array items. -/
def jsizeI : List JVal → Nat
  | [] => 1
  | [x] => 1 + jsizeV x
  | x :: y :: xs => 1 + jsizeV x + jsizeI (y :: xs)

/-- A fuel bound for parsing serialized object members. -/
def jsizeF : List (JStr × JVal) → Nat
  | [] => 1
  | [(_, v)] => 1 + jsizeV v
  | (_, v) :: f :: fs => 1 + jsizeV v + jsizeF (f :: fs)
end

/-- Delimits a digit run: empty input or a non-digit first unit. -/
def numStopB : List Nat → Bool
  | [] => true
  | c :: _ => !isDigitU c

end LS

/-! ## Proofs -/

namespace LS

/-! ### Decimal digits -/

theorem natRepAux_acc (fuel : Nat) : ∀ (n : Nat) (acc : List Nat),
    natRepAux fuel n acc = natRepAux fuel n [] ++ acc := by
  induction fuel with
  | zero => intro n acc; simp [natRepAux]
  | succ fuel ih =>
    intro n acc
    by_cases h : n < 10
    · simp [natRepAux, h]
    · simp only [natRepAux, if_neg h]
      rw [ih (n / 10) ((48 + n % 10) :: acc), ih (n / 10) [48 + n % 10]]
      simp

theorem natRepAux_fuel (n : Nat) : ∀ (f1 f2 : Nat), n < f1 → n < f2 →
    natRepAux f1 n [] = natRepAux f2 n [] := by
  induction n using Nat.strong_induction_on with
  | _ n ih =>
    intro f1 f2 h1 h2
    match f1, f2 with
    | g1 + 1, g2 + 1 =>
      by_cases h : n < 10
      · simp [natRepAux, h]
      · simp only [natRepAux, if_neg h]
        rw [natRepAux_acc g1, natRepAux_acc g2,
          ih (n / 10) (by omega) g1 g2 (by omega) (by omega)]

theorem natRep_unfold (n : Nat) :
    natRep n = (if n < 10 then [] else natRep (n / 10)) ++ [48 + n % 10] := by
  by_cases h : n < 10
  · have hm : n % 10 = n := Nat.mod_eq_of_lt h
    rw [if_pos h, List.nil_append]
    show natRepAux (n + 1) n [] = [48 + n % 10]
    simp [natRepAux, h, hm]
  · rw [if_neg h]
    show natRepAux (n + 1) n [] = natRep (n / 10) ++ [48 + n % 10]
    rw [show natRepAux (n + 1) n [] = natRepAux n (n / 10) [48 + n % 10] from by
      simp [natRepAux, h]]
    rw [natRepAux_acc n, natRepAux_fuel (n / 10) n (n / 10 + 1) (by omega) (by omega)]
    rfl

theorem natRep_digits (n : Nat) : ∀ c ∈ natRep n, isDigitU c = true := by
  induction n using Nat.strong_induction_on with
  | _ n ih =>
    rw [natRep_unfold]
    intro c hc
    rcases List.mem_append.mp hc with h | h
    · by_cases h10 : n < 10
      · simp [h10] at h
      · exact ih (n / 10) (by omega) c (by simpa [h10] using h)
    · have : c = 48 + n % 10 := by simpa using h
      subst this
      have : n % 10 < 10 := Nat.mod_lt _ (by omega)
      simp only [isDigitU, Bool.and_eq_true, decide_eq_true_eq]
      omega

theorem natRep_ne_nil (n : Nat) : natRep n ≠ [] := by
  rw [natRep_unfold]; simp

theorem digitsToNat_natRep (n : Nat) : digitsToNat (natRep n) = n := by
  induction n using Nat.strong_induction_on with
  | _ n ih =>
    rw [natRep_unfold]
    by_cases h : n < 10
    · simp only [if_pos h, List.nil_append, digitsToNat, List.foldl_cons, List.foldl_nil]
      omega
    · simp only [if_neg h, digitsToNat, List.foldl_append, List.foldl_cons, List.foldl_nil]
      have := ih (n / 10) (by omega)
      simp only [digitsToNat] at this
      rw [this]
      omega

theorem natRep_cons (n : Nat) :
    ∃ c t, natRep n = c :: t ∧ isDigitU c = true := by
  match h : natRep n with
  | [] => exact absurd h (natRep_ne_nil n)
  | c :: t =>
    refine ⟨c, t, rfl, natRep_digits n c ?_⟩
    rw [h]; exact List.mem_cons_self c t

theorem takeWhile_digits_append (ds : List Nat) (hds : ∀ c ∈ ds, isDigitU c = true)
    (rest : List Nat) (hrest : numStopB rest = true) :
    (ds ++ rest).takeWhile isDigitU = ds := by
  induction ds with
  | nil =>
    match rest with
    | [] => rfl
    | c :: t =>
      simp only [numStopB, Bool.not_eq_true'] at hrest
      simp [List.takeWhile, hrest]
  | cons c t ih =>
    have hc : isDigitU c = true := hds c (List.mem_cons_self c t)
    simp only [List.cons_append, List.takeWhile_cons, hc, if_true]
    rw [ih (fun x hx => hds x (List.mem_cons_of_mem c hx))]

theorem parseNatU_natRep (n : Nat) (rest : List Nat) (hrest : numStopB rest = true) :
    parseNatU (natRep n ++ rest) = some (n, rest) := by
  have htw := takeWhile_digits_append (natRep n) (natRep_digits n) rest hrest
  simp only [parseNatU, htw]
  rw [if_neg (by simp [natRep_ne_nil n]), digitsToNat_natRep, List.drop_left]

/-! ### String literals -/

theorem hexVal_hexDig : ∀ d < 16, hexVal (hexDig d) = some d := by decide

theorem parseStrBody_other (c : Nat) (t : List Nat) (h34 : c ≠ 34) (h92 : c ≠ 92) :
    parseStrBody (c :: t) = (parseStrBody t).map (fun p => (c :: p.1, p.2)) := by
  rw [parseStrBody.eq_def]
  split
  · rename_i heq; injection heq with h1 h2; exact absurd h1 h34
  · rename_i heq; injection heq with h1 h2; exact absurd h1 h92
  · rename_i heq; injection heq with h1 h2; exact absurd h1 h92
  · rename_i c2 rest heq; injection heq with h1 h2; subst h1; subst h2; rfl
  · rename_i heq; exact absurd heq (List.cons_ne_nil c t)

theorem parseStrBody_escU (c : Nat) (z : List Nat) :
    parseStrBody (escU c ++ z) = (parseStrBody z).map (fun p => (c :: p.1, p.2)) := by
  by_cases h34 : c = 34
  · subst h34; rfl
  by_cases h92 : c = 92
  · subst h92; rfl
  by_cases h8 : c = 8
  · subst h8; rfl
  by_cases h9 : c = 9
  · subst h9; rfl
  by_cases h10 : c = 10
  · subst h10; rfl
  by_cases h12 : c = 12
  · subst h12; rfl
  by_cases h13 : c = 13
  · subst h13; rfl
  by_cases hctl : c < 32
  · have harg : escU c ++ z
        = 92 :: 117 :: 48 :: 48 :: hexDig (c / 16) :: hexDig (c % 16) :: z := by
      simp [escU, h34, h92, h8, h9, h10, h12, h13, hctl]
    rw [harg]
    have hred : parseStrBody (92 :: 117 :: 48 :: 48 :: hexDig (c / 16) :: hexDig (c % 16) :: z)
        = (match hexVal 48, hexVal 48, hexVal (hexDig (c / 16)), hexVal (hexDig (c % 16)) with
          | some va, some vb, some vc, some vd =>
            (parseStrBody z).map
              (fun p => ((((va * 16 + vb) * 16 + vc) * 16 + vd) :: p.1, p.2))
          | _, _, _, _ => none) := rfl
    rw [hred, hexVal_hexDig (c / 16) (by omega), hexVal_hexDig (c % 16) (by omega)]
    have h48 : hexVal 48 = some 0 := rfl
    rw [h48]
    have harith : (((0 * 16 + 0) * 16 + c / 16) * 16 + c % 16) = c := by omega
    simp only [harith]
  · have hn8 : c ≠ 8 := by omega
    have hn9 : c ≠ 9 := by omega
    have hn10 : c ≠ 10 := by omega
    have hn12 : c ≠ 12 := by omega
    have hn13 : c ≠ 13 := by omega
    have harg : escU c ++ z = c :: z := by
      simp [escU, h34, h92, hn8, hn9, hn10, hn12, hn13, hctl]
    rw [harg, parseStrBody_other c z h34 h92]

theorem parseStrBody_escBody (s : JStr) : ∀ rest : List Nat,
    parseStrBody (escBody s ++ 34 :: rest) = some (s, rest) := by
  induction s with
  | nil => intro rest; rfl
  | cons c s ih =>
    intro rest
    have harg : escBody (c :: s) ++ 34 :: rest = escU c ++ (escBody s ++ 34 :: rest) := by
      simp [escBody]
    rw [harg, parseStrBody_escU c _, ih rest]
    rfl

/-! ### Parser head reductions -/

theorem parseP_val_digit (fuel : Nat) (c : Nat) (t : List Nat) (hc : isDigitU c = true) :
    parseP (fuel + 1) .pval (c :: t)
      = (parseNatU (c :: t)).map (fun p => (.jnum (p.1 : Int), p.2)) := by
  simp only [isDigitU, Bool.and_eq_true, decide_eq_true_eq] at hc
  obtain ⟨h1, h2⟩ := hc
  interval_cases c <;> simp [parseP, parseNatU, isDigitU]

theorem parseP_items_cont (fuel : Nat) (c : Nat) (t : List Nat) (hc : c ≠ 93)
    (v : JVal) (r : List Nat) (hv : parseP fuel .pval (c :: t) = some (v, 44 :: r))
    (xs : List JVal) (r2 : List Nat) (hxs : parseP fuel .pitems r = some (.jarr xs, r2)) :
    parseP (fuel + 1) .pitems (c :: t) = some (.jarr (v :: xs), r2) := by
  rw [parseP.eq_def]
  split
  · rename_i heq
    exact absurd heq (by omega)
  · rename_i heq1 heq2
    exact PKind.noConfusion heq2
  · rename_i fuel2 heq1 heq2
    have hf : fuel2 = fuel := by omega
    subst hf
    split
    · rename_i rest heq
      injection heq with h1 h2
      exact absurd h1 hc
    · rw [hv]
      simp only [hxs]
  · rename_i heq1 heq2
    exact PKind.noConfusion heq2

theorem parseP_items_last (fuel : Nat) (c : Nat) (t : List Nat) (hc : c ≠ 93)
    (v : JVal) (r : List Nat) (hv : parseP fuel .pval (c :: t) = some (v, 93 :: r)) :
    parseP (fuel + 1) .pitems (c :: t) = some (.jarr [v], r) := by
  rw [parseP.eq_def]
  split
  · rename_i heq
    exact absurd heq (by omega)
  · rename_i heq1 heq2
    exact PKind.noConfusion heq2
  · rename_i fuel2 heq1 heq2
    have hf : fuel2 = fuel := by omega
    subst hf
    split
    · rename_i rest heq
      injection heq with h1 h2
      exact absurd h1 hc
    · rw [hv]
  · rename_i heq1 heq2
    exact PKind.noConfusion heq2

/-! ### Head shape of serialized values -/

theorem strV_cons (v : JVal) : ∃ c t, strV v = c :: t ∧ c ≠ 93 := by
  match v with
  | .jnull => exact ⟨110, _, rfl, by omega⟩
  | .jbool true => exact ⟨116, _, rfl, by omega⟩
  | .jbool false => exact ⟨102, _, rfl, by omega⟩
  | .jnum n =>
    by_cases hn : n < 0
    · refine ⟨45, natRep n.natAbs, ?_, by omega⟩
      simp [strV, intRep, hn]
    · obtain ⟨c, t, hct, hc⟩ := natRep_cons n.natAbs
      refine ⟨c, t, ?_, ?_⟩
      · simp [strV, intRep, hn, hct]
      · simp only [isDigitU, Bool.and_eq_true, decide_eq_true_eq] at hc
        omega
  | .jstr s => exact ⟨34, _, rfl, by omega⟩
  | .jarr xs => exact ⟨91, _, rfl, by omega⟩
  | .jobj fs => exact ⟨123, _, rfl, by omega⟩

theorem jsizeV_pos (v : JVal) : 1 ≤ jsizeV v := by
  cases v <;> simp [jsizeV]

theorem jsizeI_pos (xs : List JVal) : 1 ≤ jsizeI xs := by
  match xs with
  | [] => simp [jsizeI]
  | [x] => simp only [jsizeI]; omega
  | x :: y :: xs => simp only [jsizeI]; omega

theorem jsizeF_pos (fs : List (JStr × JVal)) : 1 ≤ jsizeF fs := by
  match fs with
  | [] => simp [jsizeF]
  | [(k, v)] => simp only [jsizeF]; omega
  | (k, v) :: f :: fs => simp only [jsizeF]; omega

/-! ### The codec round-trip -/

theorem parseP_strV (fuel : Nat) :
    (∀ v rest, jsizeV v ≤ fuel → numStopB rest = true →
      parseP fuel .pval (strV v ++ rest) = some (v, rest))
    ∧ (∀ xs rest, jsizeI xs ≤ fuel →
      parseP fuel .pitems (strItems xs ++ rest) = some (.jarr xs, rest))
    ∧ (∀ fs rest, jsizeF fs ≤ fuel →
      parseP fuel .pfields (strFields fs ++ rest) = some (.jobj fs, rest)) := by
  induction fuel with
  | zero =>
    refine ⟨?_, ?_, ?_⟩
    · intro v rest hsz; have := jsizeV_pos v; omega
    · intro xs rest hsz; have := jsizeI_pos xs; exact absurd hsz (by omega)
    · intro fs rest hsz; have := jsizeF_pos fs; exact absurd hsz (by omega)
  | succ fuel ih =>
    obtain ⟨ihV, ihI, ihF⟩ := ih
    refine ⟨?_, ?_, ?_⟩
    · intro v rest hsz hstop
      match v with
      | .jnull => simp [strV, parseP]
      | .jbool true => simp [strV, parseP]
      | .jbool false => simp [strV, parseP]
      | .jnum n =>
        rcases lt_or_ge n 0 with hn | hn
        · have harg : strV (.jnum n) ++ rest = 45 :: (natRep n.natAbs ++ rest) := by
            simp [strV, intRep, hn]
          rw [harg]
          simp only [parseP]
          rw [parseNatU_natRep _ _ hstop]
          have hnn : -((n.natAbs : Int)) = n := by omega
          simp only [Option.map_some']
          rw [hnn]
        · obtain ⟨c, t, hct, hc⟩ := natRep_cons n.natAbs
          have harg : strV (.jnum n) ++ rest = c :: (t ++ rest) := by
            simp [strV, intRep, not_lt_of_ge hn, hct]
          rw [harg, parseP_val_digit fuel c (t ++ rest) hc]
          have hback : c :: (t ++ rest) = natRep n.natAbs ++ rest := by
            rw [hct]; rfl
          rw [hback, parseNatU_natRep _ _ hstop]
          have hnn : ((n.natAbs : Int)) = n := by omega
          simp only [Option.map_some']
          rw [hnn]
      | .jstr s =>
        have harg : strV (.jstr s) ++ rest = 34 :: (escBody s ++ 34 :: rest) := by
          simp [strV, strLit]
        rw [harg]
        simp only [parseP]
        rw [parseStrBody_escBody s rest]
        rfl
      | .jarr xs =>
        have harg : strV (.jarr xs) ++ rest = 91 :: (strItems xs ++ rest) := by
          simp [strV]
        rw [harg]
        simp only [parseP]
        refine ihI xs rest ?_
        simp only [jsizeV] at hsz
        omega
      | .jobj fs =>
        have harg : strV (.jobj fs) ++ rest = 123 :: (strFields fs ++ rest) := by
          simp [strV]
        rw [harg]
        simp only [parseP]
        refine ihF fs rest ?_
        simp only [jsizeV] at hsz
        omega
    · intro xs rest hsz
      match xs with
      | [] => simp [strItems, parseP]
      | [x] =>
        obtain ⟨c, t, hct, hc93⟩ := strV_cons x
        have hx : parseP fuel .pval (c :: (t ++ 93 :: rest)) = some (x, 93 :: rest) := by
          have := ihV x (93 :: rest) (by simp only [jsizeI] at hsz; omega) (by rfl)
          rw [hct] at this
          simpa using this
        have harg : strItems [x] ++ rest = c :: (t ++ 93 :: rest) := by
          rw [strItems, hct]
          simp
        rw [harg, parseP_items_last fuel c _ hc93 x _ hx]
      | x :: y :: xs2 =>
        obtain ⟨c, t, hct, hc93⟩ := strV_cons x
        have hx : parseP fuel .pval (c :: (t ++ 44 :: (strItems (y :: xs2) ++ rest)))
            = some (x, 44 :: (strItems (y :: xs2) ++ rest)) := by
          have := ihV x (44 :: (strItems (y :: xs2) ++ rest))
            (by simp only [jsizeI] at hsz; omega) (by rfl)
          rw [hct] at this
          simpa using this
        have hxs : parseP fuel .pitems (strItems (y :: xs2) ++ rest)
            = some (.jarr (y :: xs2), rest) :=
          ihI (y :: xs2) rest (by simp only [jsizeI] at hsz ⊢; omega)
        have harg : strItems (x :: y :: xs2) ++ rest
            = c :: (t ++ 44 :: (strItems (y :: xs2) ++ rest)) := by
          rw [strItems, hct]
          simp
        rw [harg, parseP_items_cont fuel c _ hc93 x _ hx (y :: xs2) rest hxs]
    · intro fs rest hsz
      match fs with
      | [] => simp [strFields, parseP]
      | [(k, v)] =>
        have hv : parseP fuel .pval (strV v ++ 125 :: rest) = some (v, 125 :: rest) :=
          ihV v (125 :: rest) (by simp only [jsizeF] at hsz; omega) (by rfl)
        have harg : strFields [(k, v)] ++ rest
            = 34 :: (escBody k ++ 34 :: (58 :: (strV v ++ 125 :: rest))) := by
          rw [strFields, strLit]
          simp
        rw [harg]
        simp only [parseP]
        rw [parseStrBody_escBody k _]
        simp only []
        rw [hv]
      | (k, v) :: f :: fs2 =>
        have hv : parseP fuel .pval (strV v ++ 44 :: (strFields (f :: fs2) ++ rest))
            = some (v, 44 :: (strFields (f :: fs2) ++ rest)) :=
          ihV v _ (by simp only [jsizeF] at hsz; omega) (by rfl)
        have hfs : parseP fuel .pfields (strFields (f :: fs2) ++ rest)
            = some (.jobj (f :: fs2), rest) :=
          ihF (f :: fs2) rest (by simp only [jsizeF] at hsz ⊢; omega)
        have harg : strFields ((k, v) :: f :: fs2) ++ rest
            = 34 :: (escBody k ++ 34 :: (58 :: (strV v ++ 44 :: (strFields (f :: fs2) ++ rest)))) := by
          rw [strFields, strLit]
          simp
        rw [harg]
        simp only [parseP]
        rw [parseStrBody_escBody k _]
        simp only []
        rw [hv]
        simp only [hfs]

theorem jsize_le_len (B : Nat) :
    (∀ v, jsizeV v ≤ B → jsizeV v ≤ (strV v).length)
    ∧ (∀ xs, jsizeI xs ≤ B → jsizeI xs ≤ (strItems xs).length)
    ∧ (∀ fs, jsizeF fs ≤ B → jsizeF fs ≤ (strFields fs).length) := by
  induction B with
  | zero =>
    refine ⟨?_, ?_, ?_⟩
    · intro v h; have := jsizeV_pos v; omega
    · intro xs h; have := jsizeI_pos xs; omega
    · intro fs h; have := jsizeF_pos fs; omega
  | succ B ih =>
    obtain ⟨ihV, ihI, ihF⟩ := ih
    refine ⟨?_, ?_, ?_⟩
    · intro v hsz
      match v with
      | .jnull => simp [jsizeV, strV]
      | .jbool true => simp [jsizeV, strV]
      | .jbool false => simp [jsizeV, strV]
      | .jnum n =>
        have h1 : natRep n.natAbs ≠ [] := natRep_ne_nil _
        have h2 : 0 < (natRep n.natAbs).length := List.length_pos.mpr h1
        by_cases hn : n < 0
        · simp only [jsizeV, strV, intRep, if_pos hn, List.length_append,
            List.length_cons, List.length_nil]
          omega
        · simp only [jsizeV, strV, intRep, if_neg hn, List.nil_append]
          omega
      | .jstr s =>
        simp [jsizeV, strV, strLit]
      | .jarr xs =>
        have := ihI xs (by simp only [jsizeV] at hsz; omega)
        simp only [jsizeV, strV, List.length_cons]
        omega
      | .jobj fs =>
        have := ihF fs (by simp only [jsizeV] at hsz; omega)
        simp only [jsizeV, strV, List.length_cons]
        omega
    · intro xs hsz
      match xs with
      | [] => simp [jsizeI, strItems]
      | [x] =>
        have := ihV x (by simp only [jsizeI] at hsz; omega)
        simp only [jsizeI, strItems, List.length_append, List.length_cons, List.length_nil]
        omega
      | x :: y :: xs2 =>
        have h1 := ihV x (by simp only [jsizeI] at hsz; omega)
        have h2 := ihI (y :: xs2) (by simp only [jsizeI] at hsz; omega)
        simp only [jsizeI, strItems, List.length_append, List.length_cons]
        omega
    · intro fs hsz
      match fs with
      | [] => simp [jsizeF, strFields]
      | [(k, v)] =>
        have := ihV v (by simp only [jsizeF] at hsz; omega)
        simp only [jsizeF, strFields, List.length_append, List.length_cons, List.length_nil]
        omega
      | (k, v) :: f :: fs2 =>
        have h1 := ihV v (by simp only [jsizeF] at hsz; omega)
        have h2 := ihF (f :: fs2) (by simp only [jsizeF] at hsz; omega)
        simp only [jsizeF, strFields, List.length_append, List.length_cons]
        omega

theorem jsizeV_le_len (v : JVal) : jsizeV v ≤ (strV v).length :=
  (jsize_le_len (jsizeV v)).1 v le_rfl

/-- The codec round-trip: parsing a serialized value recovers it. -/
theorem parseJson_strV (v : JVal) : parseJson (strV v) = some v := by
  have h := (parseP_strV ((strV v).length + 1)).1 v []
    (by have := jsizeV_le_len v; omega) rfl
  rw [List.append_nil] at h
  simp only [parseJson, h]

theorem strV_ne_nil (v : JVal) : strV v ≠ [] := by
  obtain ⟨c, t, hct, _⟩ := strV_cons v
  simp [hct]

/-! ### Store lemmas -/

theorem getItem_setItem_self (k v : JStr) : ∀ st : Store,
    getItem k (setItem k v st) = some v := by
  intro st
  induction st with
  | nil => simp [setItem, getItem]
  | cons e st ih =>
    obtain ⟨ek, ev⟩ := e
    by_cases h : ek = k
    · rw [setItem, if_pos h, getItem, if_pos rfl]
    · rw [setItem, if_neg h, getItem, if_neg h]
      exact ih

theorem getItem_setItem_ne (k k2 v : JStr) (h : k2 ≠ k) : ∀ st : Store,
    getItem k2 (setItem k v st) = getItem k2 st := by
  have hkk : ¬(k = k2) := fun hh => h hh.symm
  intro st
  induction st with
  | nil => simp only [setItem, getItem, if_neg hkk]
  | cons e st ih =>
    obtain ⟨ek, ev⟩ := e
    by_cases he : ek = k
    · subst he
      rw [setItem, if_pos rfl, getItem, if_neg hkk, getItem, if_neg hkk]
    · rw [setItem, if_neg he, getItem, getItem]
      by_cases he2 : ek = k2
      · rw [if_pos he2, if_pos he2]
      · rw [if_neg he2, if_neg he2]
        exact ih

theorem getItem_removeItem_self (k : JStr) : ∀ st : Store,
    getItem k (removeItem k st) = none := by
  intro st
  induction st with
  | nil => simp [removeItem, getItem]
  | cons e st ih =>
    obtain ⟨ek, ev⟩ := e
    by_cases h : ek = k
    · rw [removeItem, if_pos h]
      exact ih
    · rw [removeItem, if_neg h, getItem, if_neg h]
      exact ih

theorem getItem_removeItem_ne (k k2 : JStr) (h : k2 ≠ k) : ∀ st : Store,
    getItem k2 (removeItem k st) = getItem k2 st := by
  have hkk : ¬(k = k2) := fun hh => h hh.symm
  intro st
  induction st with
  | nil => simp [removeItem, getItem]
  | cons e st ih =>
    obtain ⟨ek, ev⟩ := e
    by_cases he : ek = k
    · subst he
      rw [removeItem, if_pos rfl, ih, getItem, if_neg hkk]
    · rw [removeItem, if_neg he, getItem, getItem]
      by_cases he2 : ek = k2
      · rw [if_pos he2, if_pos he2]
      · rw [if_neg he2, if_neg he2]
        exact ih

theorem getItem_removeItem_none (k k2 : JStr) (st : Store)
    (h : getItem k2 st = none) : getItem k2 (removeItem k st) = none := by
  by_cases he : k2 = k
  · subst he; exact getItem_removeItem_self k2 st
  · rw [getItem_removeItem_ne k k2 he st]; exact h

theorem mem_storeKeys_of_getItem (k : JStr) (st : Store) (s : JStr)
    (h : getItem k st = some s) : k ∈ storeKeys st := by
  induction st with
  | nil => simp [getItem] at h
  | cons e st ih =>
    rw [getItem] at h
    by_cases he : e.1 = k
    · simp [storeKeys, he]
    · rw [if_neg he] at h
      simp only [storeKeys, List.map_cons, List.mem_cons]
      exact Or.inr (ih h)

/-! ### Object-field lemmas -/

theorem getField_setField_ne (k1 k2 : JStr) (x : JVal) (h : k1 ≠ k2) :
    ∀ fs : List (JStr × JVal), getField (setField fs k1 x) k2 = getField fs k2 := by
  intro fs
  induction fs with
  | nil => simp only [setField, getField, if_neg h]
  | cons e fs ih =>
    obtain ⟨ek, ev⟩ := e
    by_cases he : ek = k1
    · subst he
      rw [setField, if_pos rfl, getField, if_neg h, getField, if_neg h]
    · rw [setField, if_neg he, getField, getField]
      by_cases he2 : ek = k2
      · rw [if_pos he2, if_pos he2]
      · rw [if_neg he2, if_neg he2]
        exact ih

/-! ### Obfuscator lemmas -/

theorem spreadFirstUnits_id (s : JStr) (h : ∀ u ∈ s, isHighSurr u = false) :
    spreadFirstUnits s = s := by
  induction s with
  | nil => rfl
  | cons u s ih =>
    have hu : isHighSurr u = false := h u (List.mem_cons_self u s)
    match s with
    | [] => rfl
    | u2 :: s2 =>
      rw [spreadFirstUnits, hu]
      simp only [Bool.false_and, Bool.false_eq_true, if_false]
      rw [ih (fun x hx => h x (List.mem_cons_of_mem u hx))]

theorem toUint16_shift_unshift (S : Int) (u : Nat) (h : u < 65536) :
    toUint16 ((toUint16 ((u : Int) + S) : Int) - S) = u := by
  simp only [toUint16]
  omega

/-- Decrypting an encrypted string recovers the original serialization,
    provided no code unit of it (or of its shifted image) is part of a
    surrogate pair. -/
theorem obfusDec_obfusEnc (v : JVal) (S : Int)
    (h : ∀ u ∈ strV v, surrFree S u = true) :
    decrypter (.jstr (obfusEnc v S)) S = some v := by
  have h' : ∀ u ∈ strV v, u < 65536 ∧ isHighSurr u = false
      ∧ isHighSurr (toUint16 ((u : Int) + S)) = false := by
    intro u hu
    have := h u hu
    simp only [surrFree, Bool.and_eq_true, Bool.not_eq_true', decide_eq_true_eq] at this
    exact ⟨this.1.1.1.1, this.1.1.1.2, this.1.2⟩
  have hs : ∀ u ∈ strV v, isHighSurr u = false := fun u hu => (h' u hu).2.1
  have henc : obfusEnc v S = (strV v).map (fun (u : Nat) => toUint16 ((u : Int) + S)) := by
    simp only [obfusEnc, spreadFirstUnits_id (strV v) hs]
  have hencs : ∀ u ∈ obfusEnc v S, isHighSurr u = false := by
    intro u hu
    rw [henc] at hu
    obtain ⟨u0, hu0, rfl⟩ := List.mem_map.mp hu
    exact (h' u0 hu0).2.2
  simp only [decrypter, obfusDecUnits, spreadFirstUnits_id _ hencs]
  rw [henc, List.map_map]
  have hmap : List.map ((fun (u : Nat) => toUint16 ((u : Int) - S))
      ∘ (fun (u : Nat) => toUint16 ((u : Int) + S))) (strV v) = strV v := by
    have hpt : ∀ u ∈ strV v, ((fun (u : Nat) => toUint16 ((u : Int) - S))
        ∘ (fun (u : Nat) => toUint16 ((u : Int) + S))) u = id u := by
      intro u hu
      simp only [Function.comp_apply, id_eq]
      exact toUint16_shift_unshift S u (h' u hu).1
    rw [List.map_congr_left hpt, List.map_id]
  rw [hmap]
  simp [parseJson_strV]

/-! ### Scenario lemmas for `set` and `get` -/

theorem set_plain (now : Int) (cfg : GlobalConfig) (k : JStr) (v : JVal)
    (lc : LocalConfig) (st : Store)
    (httl : hasTTLc (mergeTtl lc.ttl cfg.ttl) = false)
    (henc : mergeEncrypt lc.encrypt cfg.encrypt = false) :
    set now cfg k (some v) lc st
      = (true, setItem (prefixKey (mergePfx lc.pfx cfg.pfx) k) (strV v) st) := by
  simp only [set, mergeConf, httl, henc, Bool.false_eq_true, if_false]

theorem set_ttl (now t : Int) (cfg : GlobalConfig) (k : JStr) (v : JVal)
    (lc : LocalConfig) (st : Store)
    (httl : mergeTtl lc.ttl cfg.ttl = some t) (ht : 0 < t)
    (henc : mergeEncrypt lc.encrypt cfg.encrypt = false) :
    set now cfg k (some v) lc st
      = (true, setItem (prefixKey (mergePfx lc.pfx cfg.pfx) k)
          (strV (.jobj [(APX, v), (ttlField, .jnum (now + t * 1000))])) st) := by
  simp only [set, mergeConf, httl, henc, hasTTLc, decide_eq_true_eq, ht, if_true,
    Option.getD_some, Bool.false_eq_true, if_false]

theorem set_enc (now : Int) (cfg : GlobalConfig) (k : JStr) (v : JVal)
    (lc : LocalConfig) (st : Store)
    (httl : hasTTLc (mergeTtl lc.ttl cfg.ttl) = false)
    (henc : mergeEncrypt lc.encrypt cfg.encrypt = true) :
    set now cfg k (some v) lc st
      = (true, setItem (prefixKey (mergePfx lc.pfx cfg.pfx) k)
          (strV (.jstr (obfusEnc v (lc.secret.getD cfg.secret)))) st) := by
  simp only [set, mergeConf, httl, henc, Bool.false_eq_true, if_false, if_true]

theorem set_ttl_enc (now t : Int) (cfg : GlobalConfig) (k : JStr) (v : JVal)
    (lc : LocalConfig) (st : Store)
    (httl : mergeTtl lc.ttl cfg.ttl = some t) (ht : 0 < t)
    (henc : mergeEncrypt lc.encrypt cfg.encrypt = true) :
    set now cfg k (some v) lc st
      = (true, setItem (prefixKey (mergePfx lc.pfx cfg.pfx) k)
          (strV (.jobj [(APX, .jstr (obfusEnc v (lc.secret.getD cfg.secret))),
            (ttlField, .jnum (now + t * 1000))])) st) := by
  simp only [set, mergeConf, httl, henc, hasTTLc, decide_eq_true_eq, ht, if_true,
    Option.getD_some, jset, setField, if_pos rfl]

theorem get_entry_nodecrypt (now : Int) (cfg : GlobalConfig) (key : JStr)
    (lc : LocalConfig) (st : Store) (item : JVal)
    (henc : mergeEncrypt lc.encrypt cfg.encrypt = false)
    (hdec : lc.decrypt = false)
    (hgi : getItem (prefixKey (mergePfx lc.pfx cfg.pfx) key) st = some (strV item)) :
    get now cfg key lc st
      = (if !(isObjB item && jhas item APX) then (.val (some item), st)
         else if jsGTnum now (jget item ttlField)
           then (.val none, removeItem (prefixKey (mergePfx lc.pfx cfg.pfx) key) st)
           else (.val (jget item APX), st)) := by
  simp only [get, mergeConf, hgi, henc, hdec, strV_ne_nil item, if_neg,
    parseJson_strV, Bool.or_self, Bool.false_eq_true, if_false]

/-! ### The sweep, characterized -/

theorem flushStep_char (now : Int) (force : Bool) (p : Option JStr)
    (acc : Store) (k : JStr) :
    flushStep now force p acc k
      = (match getItem k acc with
         | some s => if flushCond now force p k s then removeItem k acc else acc
         | none => acc) := by
  have main : ∀ pass : Bool,
      (if !pass then acc
       else match getItem k acc with
        | none => acc
        | some s =>
          if s = [] then acc
          else match parseJson s with
            | none => acc
            | some item =>
              if (isObjB item && jhas item APX) && (jsGTnum now (jget item ttlField) || force)
              then removeItem k acc else acc)
      = (match getItem k acc with
         | some s =>
           if (pass && (if s = [] then false
              else match parseJson s with
                | some item =>
                  (isObjB item && jhas item APX) && (jsGTnum now (jget item ttlField) || force)
                | none => false)) then removeItem k acc else acc
         | none => acc) := by
    intro pass
    cases pass with
    | false =>
      simp only [Bool.not_false, if_true, Bool.false_and, Bool.false_eq_true, if_false]
      cases getItem k acc with
      | none => rfl
      | some s => simp
    | true =>
      simp only [Bool.not_true, Bool.false_eq_true, if_false, Bool.true_and]
      cases getItem k acc with
      | none => rfl
      | some s =>
        by_cases hs : s = []
        · simp [hs]
        · simp only [if_neg hs]
          cases parseJson s with
          | none => simp
          | some item => rfl
  simp only [flushStep, flushCond]
  exact main (match p with | some q => q.isPrefixOf k | none => true)

theorem flushStep_cases (now : Int) (force : Bool) (p : Option JStr)
    (acc : Store) (k : JStr) :
    flushStep now force p acc k = acc ∨ flushStep now force p acc k = removeItem k acc := by
  rw [flushStep_char]
  cases getItem k acc with
  | none => exact Or.inl rfl
  | some s =>
    cases hc : flushCond now force p k s with
    | true => right; simp [hc]
    | false => left; simp [hc]

theorem flushStep_self_keep (now : Int) (force : Bool) (p : Option JStr)
    (acc : Store) (k : JStr) (s : JStr) (hg : getItem k acc = some s)
    (hc : flushCond now force p k s = false) :
    flushStep now force p acc k = acc := by
  rw [flushStep_char, hg]
  simp [hc]

theorem flushStep_self_remove (now : Int) (force : Bool) (p : Option JStr)
    (acc : Store) (k : JStr) (s : JStr) (hg : getItem k acc = some s)
    (hc : flushCond now force p k s = true) :
    flushStep now force p acc k = removeItem k acc := by
  rw [flushStep_char, hg]
  simp [hc]

theorem foldl_flush_keep (now : Int) (force : Bool) (p : Option JStr) :
    ∀ (ks : List JStr) (st : Store) (k : JStr) (s : JStr),
    getItem k st = some s → flushCond now force p k s = false →
    getItem k (ks.foldl (flushStep now force p) st) = some s := by
  intro ks
  induction ks with
  | nil => intro st k s hg hc; simpa using hg
  | cons k2 ks ih =>
    intro st k s hg hc
    rw [List.foldl_cons]
    by_cases he : k2 = k
    · subst he
      rw [flushStep_self_keep now force p st k2 s hg hc]
      exact ih st k2 s hg hc
    · have hpres : getItem k (flushStep now force p st k2) = some s := by
        rcases flushStep_cases now force p st k2 with h | h
        · rw [h]; exact hg
        · rw [h, getItem_removeItem_ne k2 k (fun hh => he hh.symm) st]; exact hg
      exact ih _ k s hpres hc

theorem foldl_flush_none (now : Int) (force : Bool) (p : Option JStr) :
    ∀ (ks : List JStr) (st : Store) (k : JStr),
    getItem k st = none →
    getItem k (ks.foldl (flushStep now force p) st) = none := by
  intro ks
  induction ks with
  | nil => intro st k hg; simpa using hg
  | cons k2 ks ih =>
    intro st k hg
    rw [List.foldl_cons]
    refine ih _ k ?_
    rcases flushStep_cases now force p st k2 with h | h
    · rw [h]; exact hg
    · rw [h]; exact getItem_removeItem_none k2 k st hg

theorem foldl_flush_remove (now : Int) (force : Bool) (p : Option JStr) :
    ∀ (ks : List JStr) (st : Store) (k : JStr) (s : JStr),
    k ∈ ks → getItem k st = some s → flushCond now force p k s = true →
    getItem k (ks.foldl (flushStep now force p) st) = none := by
  intro ks
  induction ks with
  | nil => intro st k s hmem; exact absurd hmem (List.not_mem_nil k)
  | cons k2 ks ih =>
    intro st k s hmem hg hc
    rw [List.foldl_cons]
    by_cases he : k2 = k
    · subst he
      rw [flushStep_self_remove now force p st k2 s hg hc]
      exact foldl_flush_none now force p ks _ k2 (getItem_removeItem_self k2 st)
    · have hmem2 : k ∈ ks := by
        rcases List.mem_cons.mp hmem with h | h
        · exact absurd h.symm he
        · exact h
      have hpres : getItem k (flushStep now force p st k2) = some s := by
        rcases flushStep_cases now force p st k2 with h | h
        · rw [h]; exact hg
        · rw [h, getItem_removeItem_ne k2 k (fun hh => he hh.symm) st]; exact hg
      exact ih _ k s hmem2 hpres hc

/-- What `flush` does to an entry: deleted iff `flushCond`, else untouched. -/
theorem getItem_flush (now : Int) (cfg : GlobalConfig) (force : Bool)
    (lc : LocalConfig) (st : Store) (k : JStr) (s : JStr)
    (h : getItem k st = some s) :
    getItem k (flush now cfg force lc st)
      = if flushCond now force (mergePfx lc.pfx cfg.pfx) k s then none else some s := by
  simp only [flush]
  by_cases hc : flushCond now force (mergePfx lc.pfx cfg.pfx) k s = true
  · rw [if_pos hc]
    exact foldl_flush_remove now force _ (storeKeys st) st k s
      (mem_storeKeys_of_getItem k st s h) h hc
  · rw [if_neg hc]
    refine foldl_flush_keep now force _ (storeKeys st) st k s h ?_
    revert hc
    cases flushCond now force (mergePfx lc.pfx cfg.pfx) k s <;> simp

/-! ### `clear`, characterized -/

theorem clearStep_cases (q : JStr) (acc : Store) (k : JStr) :
    clearStep q acc k = acc ∨ clearStep q acc k = removeItem k acc := by
  simp only [clearStep]
  by_cases h : q.isPrefixOf k = true
  · rw [if_pos h]; exact Or.inr rfl
  · rw [if_neg h]; exact Or.inl rfl

theorem foldl_clear_keep (q : JStr) :
    ∀ (ks : List JStr) (st : Store) (k : JStr),
    q.isPrefixOf k = false →
    getItem k (ks.foldl (clearStep q) st) = getItem k st := by
  intro ks
  induction ks with
  | nil => intro st k hp; rfl
  | cons k2 ks ih =>
    intro st k hp
    rw [List.foldl_cons]
    by_cases he : k2 = k
    · subst he
      rw [clearStep, if_neg (by simp [hp])]
      exact ih st k2 hp
    · have : getItem k (clearStep q st k2) = getItem k st := by
        rcases clearStep_cases q st k2 with h | h
        · rw [h]
        · rw [h, getItem_removeItem_ne k2 k (fun hh => he hh.symm) st]
      rw [ih _ k hp, this]

theorem foldl_clear_none (q : JStr) :
    ∀ (ks : List JStr) (st : Store) (k : JStr),
    getItem k st = none →
    getItem k (ks.foldl (clearStep q) st) = none := by
  intro ks
  induction ks with
  | nil => intro st k hg; simpa using hg
  | cons k2 ks ih =>
    intro st k hg
    rw [List.foldl_cons]
    refine ih _ k ?_
    rcases clearStep_cases q st k2 with h | h
    · rw [h]; exact hg
    · rw [h]; exact getItem_removeItem_none k2 k st hg

theorem foldl_clear_remove (q : JStr) :
    ∀ (ks : List JStr) (st : Store) (k : JStr),
    k ∈ ks → q.isPrefixOf k = true →
    getItem k (ks.foldl (clearStep q) st) = none := by
  intro ks
  induction ks with
  | nil => intro st k hmem; exact absurd hmem (List.not_mem_nil k)
  | cons k2 ks ih =>
    intro st k hmem hp
    rw [List.foldl_cons]
    by_cases he : k2 = k
    · subst he
      rw [clearStep, if_pos hp]
      exact foldl_clear_none q ks _ k2 (getItem_removeItem_self k2 st)
    · have hmem2 : k ∈ ks := by
        rcases List.mem_cons.mp hmem with h | h
        · exact absurd h.symm he
        · exact h
      exact ih _ k hmem2 hp

/-- What a prefix-scoped `clear` does to a key: gone iff it carries the
    prefix, untouched otherwise. -/
theorem getItem_clear_prefixed (cfg : GlobalConfig) (lc : LocalConfig)
    (st : Store) (k : JStr) (q : JStr)
    (hq : mergePfx lc.pfx cfg.pfx = some q) (hqne : q ≠ []) :
    getItem k (clear cfg lc st)
      = if q.isPrefixOf k then none else getItem k st := by
  simp only [clear, hq, if_neg hqne]
  by_cases hp : q.isPrefixOf k = true
  · rw [if_pos hp]
    cases hg : getItem k st with
    | none => exact foldl_clear_none q (storeKeys st) st k hg
    | some s =>
      exact foldl_clear_remove q (storeKeys st) st k
        (mem_storeKeys_of_getItem k st s hg) hp
  · rw [if_neg hp]
    refine foldl_clear_keep q (storeKeys st) st k ?_
    revert hp
    cases List.isPrefixOf q k <;> simp

/-- Without a truthy effective prefix, `clear` empties the whole store. -/
theorem clear_total (cfg : GlobalConfig) (lc : LocalConfig) (st : Store)
    (h : mergePfx lc.pfx cfg.pfx = none ∨ mergePfx lc.pfx cfg.pfx = some []) :
    clear cfg lc st = [] := by
  rcases h with h | h
  · simp [clear, h]
  · simp [clear, h]

theorem apx_ne_ttlField : APX ≠ ttlField := by decide

theorem parseJson_nil : parseJson [] = none := rfl

/-- The decrypt step of `get` on a TTL-wrapped entry rewrites only the
    sentinel field; the `ttl` property it later compares against the
    clock is the one of the parsed entry, whatever the decrypter did. -/
theorem jget_ttlField_after_decrypt (item0 : JVal) (sec : Int) :
    jget (match decrypter ((jget item0 APX).getD .jnull) sec with
          | some dec => jset item0 APX dec
          | none => item0) ttlField = jget item0 ttlField := by
  cases decrypter ((jget item0 APX).getD .jnull) sec with
  | none => rfl
  | some d =>
    cases item0 with
    | jobj fs =>
      simp only [jset, jget]
      exact getField_setField_ne APX ttlField d apx_ne_ttlField fs
    | jnull => rfl
    | jbool b2 => rfl
    | jnum n => rfl
    | jstr s2 => rfl
    | jarr xs => rfl

/-! ## The claims -/

/-- C8: set atomicity on serialization failure.  When `JSON.stringify`
    throws (here: the value argument is `none`, standing for any
    unserializable JS value such as a circular structure), `set` catches
    the fault, returns `false`, and the underlying store is completely
    unchanged — no partial write, no propagated exception (the model's
    `set` is a total function into `Bool × Store`). -/
theorem c8_set_unserializable (now : Int) (cfg : GlobalConfig) (key : JStr)
    (lc : LocalConfig) (st : Store) :
    set now cfg key none lc st = (false, st) := rfl

/-- C1 counterexample: the round-trip claim fails as stated.  The
    JSON-serializable value `{"\u0000": 1}` (a plain object whose key is
    the sentinel character) is stored plainly under the default
    configuration (effective ttl null, encrypt false), yet `get` returns
    `1`, not the stored object, because the sentinel key makes `get`
    treat the entry as TTL-wrapped and unwrap it. -/
theorem c1_counterexample :
    (get 0 defaultConfig [107] emptyLC
        (set 0 defaultConfig [107] (some (.jobj [(APX, .jnum 1)])) emptyLC []).2).1
      = .val (some (.jnum 1))
    ∧ GetRes.val (some (.jnum 1)) ≠ .val (some (.jobj [(APX, .jnum 1)])) := by
  refine ⟨rfl, ?_⟩
  intro h
  injection h with h1
  injection h1 with h2
  exact JVal.noConfusion h2

/-- C1 (amended): plain round-trip.  For every JSON-serializable value
    `v` and key `k`, with effective ttl null, effective encrypt false
    (and no stray `decrypt` flag), `set(k, v)` succeeds and a `get(k)`
    under the same configuration returns a value equal to `v` — provided
    `v` is not itself a top-level object carrying the reserved sentinel
    field (such values are misclassified; see the counterexample). -/
theorem c1_plain_roundtrip (now now2 : Int) (cfg : GlobalConfig) (lc : LocalConfig)
    (k : JStr) (v : JVal) (st : Store)
    (httl : mergeTtl lc.ttl cfg.ttl = none)
    (henc : mergeEncrypt lc.encrypt cfg.encrypt = false)
    (hdec : lc.decrypt = false)
    (hapx : (isObjB v && jhas v APX) = false) :
    (set now cfg k (some v) lc st).1 = true
    ∧ get now2 cfg k lc (set now cfg k (some v) lc st).2
        = (.val (some v), (set now cfg k (some v) lc st).2) := by
  have hset := set_plain now cfg k v lc st (by rw [httl]; rfl) henc
  refine ⟨by rw [hset], ?_⟩
  rw [hset]
  have hgi : getItem (prefixKey (mergePfx lc.pfx cfg.pfx) k)
      (setItem (prefixKey (mergePfx lc.pfx cfg.pfx) k) (strV v) st) = some (strV v) :=
    getItem_setItem_self _ _ _
  rw [get_entry_nodecrypt now2 cfg k lc _ v henc hdec hgi]
  simp [hapx]

/-- C1 witness. -/
theorem c1_plain_roundtrip_witness :
    mergeTtl emptyLC.ttl defaultConfig.ttl = none
    ∧ mergeEncrypt emptyLC.encrypt defaultConfig.encrypt = false
    ∧ emptyLC.decrypt = false
    ∧ (isObjB (.jstr [104]) && jhas (.jstr [104]) APX) = false
    ∧ ((set 0 defaultConfig [107] (some (.jstr [104])) emptyLC []).1 = true
      ∧ get 5 defaultConfig [107] emptyLC
          (set 0 defaultConfig [107] (some (.jstr [104])) emptyLC []).2
        = (.val (some (.jstr [104])),
            (set 0 defaultConfig [107] (some (.jstr [104])) emptyLC []).2)) :=
  ⟨rfl, rfl, rfl, rfl,
    c1_plain_roundtrip 0 5 defaultConfig emptyLC [107] (.jstr [104]) [] rfl rfl rfl rfl⟩

/-- C3 counterexample: the three-way-merge claim fails for `ttl` as
    stated.  An explicit falsy override `ttl: false` is *not*
    distinguishable from "not specified": with a global default
    `ttl = 5`, both `ttl: false` and an absent override yield the same
    effective ttl `5` — the falsy override silently falls back to the
    global default (the code guards only `=== null`, then applies
    falsy-or), and the whole `set` call behaves identically. -/
theorem c3_counterexample :
    mergeTtl .fls (some 5) = some 5
    ∧ mergeTtl .fls (some 5) = mergeTtl .undef (some 5)
    ∧ set 0 ⟨some 5, false, 75, none⟩ [107] (some .jnull)
        ⟨.fls, .undef, .undef, none, false⟩ []
      = set 0 ⟨some 5, false, 75, none⟩ [107] (some .jnull) emptyLC [] :=
  ⟨rfl, rfl, rfl⟩

/-- C3 (amended): the `ttl` override merge implemented by `set`/`get` is:
    explicit `null` disables the ttl; a nonzero numeric override wins;
    an absent override falls back to the default; and a falsy override
    (`false`, like `0`) also falls back to the default — it is *not* a
    distinct "explicitly disabled" state. -/
theorem c3_ttl_merge (d : Option Int) (t : Int) (ht : t ≠ 0) :
    mergeTtl .jsnull d = none
    ∧ mergeTtl (.num t) d = some t
    ∧ mergeTtl .undef d = d
    ∧ mergeTtl .fls d = d := by
  refine ⟨rfl, ?_, rfl, rfl⟩
  simp [mergeTtl, ht]

/-- C3 witness. -/
theorem c3_ttl_merge_witness :
    (5 : Int) ≠ 0
    ∧ (mergeTtl .jsnull (some 7) = none
      ∧ mergeTtl (.num 5) (some 7) = some 5
      ∧ mergeTtl .undef (some 7) = some 7
      ∧ mergeTtl .fls (some 7) = some 7) :=
  ⟨by norm_num, c3_ttl_merge (some 7) 5 (by norm_num)⟩

/-- C2: TTL expiry.  After `set(k, v, {ttl: t})` with positive `t`
    (under a default configuration with encryption off), `get(k)`
    returns `v` while the current time is at or before the stored
    expiry `now + t*1000`; once the current time exceeds it, `get(k)`
    returns null and, as a side effect, the entry at the effective
    (prefixed) key is removed from the underlying store. -/
theorem c2_ttl_expiry (now now2 t : Int) (cfg : GlobalConfig) (k : JStr)
    (v : JVal) (st : Store) (ht : 0 < t) (henc : cfg.encrypt = false) :
    (now2 ≤ now + t * 1000 →
      get now2 cfg k emptyLC
          (set now cfg k (some v) ⟨.num t, .undef, .undef, none, false⟩ st).2
        = (.val (some v),
            (set now cfg k (some v) ⟨.num t, .undef, .undef, none, false⟩ st).2))
    ∧ (now + t * 1000 < now2 →
      get now2 cfg k emptyLC
          (set now cfg k (some v) ⟨.num t, .undef, .undef, none, false⟩ st).2
        = (.val none,
            removeItem (prefixKey cfg.pfx k)
              (set now cfg k (some v) ⟨.num t, .undef, .undef, none, false⟩ st).2)
      ∧ getItem (prefixKey cfg.pfx k)
          (get now2 cfg k emptyLC
            (set now cfg k (some v) ⟨.num t, .undef, .undef, none, false⟩ st).2).2
        = none) := by
  have httlm : mergeTtl (LocalConfig.ttl ⟨.num t, .undef, .undef, none, false⟩) cfg.ttl
      = some t := by
    simp only [mergeTtl]
    rw [if_neg (by omega)]
  have hencm : mergeEncrypt
      (LocalConfig.encrypt ⟨.num t, .undef, .undef, none, false⟩) cfg.encrypt = false := by
    simp only [mergeEncrypt]
    exact henc
  have hset := set_ttl now t cfg k v ⟨.num t, .undef, .undef, none, false⟩ st httlm ht hencm
  have hpfx : mergePfx (LocalConfig.pfx ⟨.num t, .undef, .undef, none, false⟩) cfg.pfx
      = cfg.pfx := rfl
  rw [hpfx] at hset
  have hgi : getItem (prefixKey cfg.pfx k)
      (set now cfg k (some v) ⟨.num t, .undef, .undef, none, false⟩ st).2
      = some (strV (.jobj [(APX, v), (ttlField, .jnum (now + t * 1000))])) := by
    rw [hset]
    exact getItem_setItem_self _ _ _
  have hgetlc : mergePfx (LocalConfig.pfx emptyLC) cfg.pfx = cfg.pfx := rfl
  have hget := get_entry_nodecrypt now2 cfg k emptyLC
    (set now cfg k (some v) ⟨.num t, .undef, .undef, none, false⟩ st).2
    (.jobj [(APX, v), (ttlField, .jnum (now + t * 1000))])
    (by simp only [mergeEncrypt, emptyLC]; exact henc) rfl (by rw [hgetlc]; exact hgi)
  rw [hgetlc] at hget
  have hwrap : (isObjB (.jobj [(APX, v), (ttlField, .jnum (now + t * 1000))])
      && jhas (.jobj [(APX, v), (ttlField, .jnum (now + t * 1000))]) APX) = true := by
    simp [isObjB, jhas, hasField]
  have httlget : jget (.jobj [(APX, v), (ttlField, .jnum (now + t * 1000))]) ttlField
      = some (.jnum (now + t * 1000)) := by
    simp [jget, getField, if_neg apx_ne_ttlField]
  have hapxget : jget (.jobj [(APX, v), (ttlField, .jnum (now + t * 1000))]) APX
      = some v := by
    simp [jget, getField]
  constructor
  · intro hle
    rw [hget, hwrap]
    have hexp : jsGTnum now2 (jget (.jobj [(APX, v), (ttlField, .jnum (now + t * 1000))])
        ttlField) = false := by
      rw [httlget]
      simp only [jsGTnum, decide_eq_false_iff_not]
      omega
    rw [hexp]
    simp [hapxget]
  · intro hlt
    have hexp : jsGTnum now2 (jget (.jobj [(APX, v), (ttlField, .jnum (now + t * 1000))])
        ttlField) = true := by
      rw [httlget]
      simp only [jsGTnum, decide_eq_true_eq]
      omega
    have hres : get now2 cfg k emptyLC
        (set now cfg k (some v) ⟨.num t, .undef, .undef, none, false⟩ st).2
        = (.val none,
            removeItem (prefixKey cfg.pfx k)
              (set now cfg k (some v) ⟨.num t, .undef, .undef, none, false⟩ st).2) := by
      rw [hget, hwrap, hexp]
      simp
    refine ⟨hres, ?_⟩
    rw [hres]
    exact getItem_removeItem_self _ _

/-- C2 witness: at `t = 1`, a read at 500ms sees the value, a read at
    1500ms sees null and the entry gone. -/
theorem c2_ttl_expiry_witness :
    get 500 defaultConfig [107] emptyLC
        (set 0 defaultConfig [107] (some .jnull) ⟨.num 1, .undef, .undef, none, false⟩ []).2
      = (.val (some .jnull),
          (set 0 defaultConfig [107] (some .jnull) ⟨.num 1, .undef, .undef, none, false⟩ []).2)
    ∧ (get 1500 defaultConfig [107] emptyLC
        (set 0 defaultConfig [107] (some .jnull) ⟨.num 1, .undef, .undef, none, false⟩ []).2
      = (.val none,
          removeItem (prefixKey defaultConfig.pfx [107])
            (set 0 defaultConfig [107] (some .jnull) ⟨.num 1, .undef, .undef, none, false⟩ []).2)
      ∧ getItem (prefixKey defaultConfig.pfx [107])
          (get 1500 defaultConfig [107] emptyLC
            (set 0 defaultConfig [107] (some .jnull)
              ⟨.num 1, .undef, .undef, none, false⟩ []).2).2 = none) :=
  ⟨(c2_ttl_expiry 0 500 1 defaultConfig [107] .jnull [] (by norm_num) rfl).1 (by norm_num),
   (c2_ttl_expiry 0 1500 1 defaultConfig [107] .jnull [] (by norm_num) rfl).2 (by norm_num)⟩

/-- C5 counterexample: the sentinel field *is* producible by an ordinary
    JSON-serializable application value.  Storing the plain object
    `{"\u0000": true, "ttl": 99}` (no TTL configured) and reading it at
    time 100 misclassifies it as an expired TTL-wrapped entry: `get`
    returns null and even deletes the entry. -/
theorem c5_counterexample :
    get 100 defaultConfig [107] emptyLC
        (set 0 defaultConfig [107]
          (some (.jobj [(APX, .jbool true), (ttlField, .jnum 99)])) emptyLC []).2
      = (.val none, [])
    ∧ GetRes.val none
      ≠ .val (some (.jobj [(APX, .jbool true), (ttlField, .jnum 99)])) := by
  refine ⟨rfl, ?_⟩
  intro h
  injection h with h1
  exact Option.noConfusion h1

/-- C5 (amended): on read, the presence of the reserved sentinel field
    is the only signal distinguishing TTL-wrapped entries from plain
    ones, and for every JSON-serializable value that does *not* carry
    the sentinel field at top level, a plainly stored value is never
    misclassified: `get` returns it unchanged (under any configuration
    whose effective ttl is not a positive number and with encryption and
    the stray decrypt flag off).  Values that do carry the sentinel
    field are misclassified (see the counterexample). -/
theorem c5_sentinel_no_misclassify (now now2 : Int) (cfg : GlobalConfig)
    (lc : LocalConfig) (k : JStr) (v : JVal) (st : Store)
    (httl : hasTTLc (mergeTtl lc.ttl cfg.ttl) = false)
    (henc : mergeEncrypt lc.encrypt cfg.encrypt = false)
    (hdec : lc.decrypt = false)
    (hapx : (isObjB v && jhas v APX) = false) :
    get now2 cfg k lc (set now cfg k (some v) lc st).2
      = (.val (some v), (set now cfg k (some v) lc st).2) := by
  have hset := set_plain now cfg k v lc st httl henc
  rw [hset]
  have hgi : getItem (prefixKey (mergePfx lc.pfx cfg.pfx) k)
      (setItem (prefixKey (mergePfx lc.pfx cfg.pfx) k) (strV v) st) = some (strV v) :=
    getItem_setItem_self _ _ _
  rw [get_entry_nodecrypt now2 cfg k lc _ v henc hdec hgi]
  simp [hapx]

/-- C5 witness: a negative ttl is falsy-positive-free, the value is an
    object without the sentinel key, and the round trip returns it. -/
theorem c5_sentinel_no_misclassify_witness :
    hasTTLc (mergeTtl (TtlOv.num (-3)) defaultConfig.ttl) = false
    ∧ mergeEncrypt emptyLC.encrypt defaultConfig.encrypt = false
    ∧ emptyLC.decrypt = false
    ∧ (isObjB (.jobj [([116], .jnum 9)]) && jhas (.jobj [([116], .jnum 9)]) APX) = false
    ∧ get 7 defaultConfig [107] ⟨.num (-3), .undef, .undef, none, false⟩
        (set 0 defaultConfig [107] (some (.jobj [([116], .jnum 9)]))
          ⟨.num (-3), .undef, .undef, none, false⟩ []).2
      = (.val (some (.jobj [([116], .jnum 9)])),
          (set 0 defaultConfig [107] (some (.jobj [([116], .jnum 9)]))
            ⟨.num (-3), .undef, .undef, none, false⟩ []).2) :=
  ⟨rfl, rfl, rfl, rfl,
    c5_sentinel_no_misclassify 0 7 defaultConfig
      ⟨.num (-3), .undef, .undef, none, false⟩ [107] (.jobj [([116], .jnum 9)]) []
      rfl rfl rfl rfl⟩

/-- C4: flush selectivity.  For an entry `(k, s)` of the store whose
    string parses to `item`: (a) if `item` is not TTL-wrapped (no
    sentinel field), even `flush(force = true)` never removes it;
    (b) `flush()` (no force) removes every prefix-matching TTL-wrapped
    entry whose expiry timestamp is in the past; (c) an entry whose
    `ttl` field is a timestamp not yet reached is left in place by
    `flush()`. -/
theorem c4_flush_selectivity (now : Int) (cfg : GlobalConfig) (lc : LocalConfig)
    (st : Store) (k : JStr) (s : JStr) (item : JVal)
    (hg : getItem k st = some s) (hp : parseJson s = some item) :
    ((isObjB item && jhas item APX) = false →
      getItem k (flush now cfg true lc st) = some s)
    ∧ (∀ e : Int, (isObjB item && jhas item APX) = true →
        jget item ttlField = some (.jnum e) → e < now →
        (match mergePfx lc.pfx cfg.pfx with
          | some q => q.isPrefixOf k
          | none => true) = true →
        getItem k (flush now cfg false lc st) = none)
    ∧ (∀ e : Int, jget item ttlField = some (.jnum e) → now ≤ e →
        getItem k (flush now cfg false lc st) = some s) := by
  have hsne : s ≠ [] := by
    intro hh
    subst hh
    exact Option.noConfusion (parseJson_nil ▸ hp)
  refine ⟨?_, ?_, ?_⟩
  · intro hw
    rw [getItem_flush now cfg true lc st k s hg]
    have hc : flushCond now true (mergePfx lc.pfx cfg.pfx) k s = false := by
      simp only [flushCond, if_neg hsne, hp, hw, Bool.false_and, Bool.and_false]
    rw [hc]
    simp
  · intro e hw htf he hpm
    rw [getItem_flush now cfg false lc st k s hg]
    have hgt : jsGTnum now (jget item ttlField) = true := by
      rw [htf]
      simp only [jsGTnum, decide_eq_true_eq]
      omega
    have hc : flushCond now false (mergePfx lc.pfx cfg.pfx) k s = true := by
      simp [flushCond, if_neg hsne, hp, hpm, hw, hgt]
    rw [hc]
    simp
  · intro e htf he
    rw [getItem_flush now cfg false lc st k s hg]
    have hgt : jsGTnum now (jget item ttlField) = false := by
      rw [htf]
      simp only [jsGTnum, decide_eq_false_iff_not]
      omega
    have hc : flushCond now false (mergePfx lc.pfx cfg.pfx) k s = false := by
      simp [flushCond, if_neg hsne, hp, hgt]
    rw [hc]
    simp

/-- C4 witness: at time 100, over a three-entry store, forced flush
    keeps the non-wrapped entry, unforced flush removes the expired
    wrapped entry (expiry 50) and keeps the unexpired one (expiry 5000). -/
theorem c4_flush_selectivity_witness :
    getItem [97] (flush 100 defaultConfig true emptyLC sweepStore)
      = some (strV (.jnum 7))
    ∧ getItem [98] (flush 100 defaultConfig false emptyLC sweepStore) = none
    ∧ getItem [99] (flush 100 defaultConfig false emptyLC sweepStore)
      = some (strV (.jobj [(APX, .jnull), (ttlField, .jnum 5000)])) :=
  ⟨(c4_flush_selectivity 100 defaultConfig emptyLC sweepStore [97]
      (strV (.jnum 7)) (.jnum 7) rfl (parseJson_strV _)).1 rfl,
   ((c4_flush_selectivity 100 defaultConfig emptyLC sweepStore [98]
      (strV (.jobj [(APX, .jnull), (ttlField, .jnum 50)]))
      (.jobj [(APX, .jnull), (ttlField, .jnum 50)]) rfl
      (parseJson_strV _)).2.1 50 rfl (by simp [jget, getField, if_neg apx_ne_ttlField])
      (by norm_num) rfl),
   ((c4_flush_selectivity 100 defaultConfig emptyLC sweepStore [99]
      (strV (.jobj [(APX, .jnull), (ttlField, .jnum 5000)]))
      (.jobj [(APX, .jnull), (ttlField, .jnum 5000)]) rfl
      (parseJson_strV _)).2.2 5000 (by simp [jget, getField, if_neg apx_ne_ttlField])
      (by norm_num))⟩

/-- C6 counterexample: the obfuscation round-trip fails as stated (for
    every value and *every* secret).  With secret `S = 1280`, the BMP
    string value `"팀휀"` obfuscates to code units containing
    the adjacent surrogate pair `D800 DC00`; de-obfuscation iterates by
    code points, so the low half is dropped and `get` returns the
    one-character string `"팀"` instead of the stored value.  (The
    same mechanism loses astral characters under any secret.) -/
theorem c6_counterexample :
    (get 0 defaultConfig [107] ⟨.undef, .tru, .undef, some 1280, false⟩
        (set 0 defaultConfig [107] (some (.jstr [54016, 55040]))
          ⟨.undef, .tru, .undef, some 1280, false⟩ []).2).1
      = .val (some (.jstr [54016]))
    ∧ GetRes.val (some (.jstr [54016]))
      ≠ .val (some (.jstr [54016, 55040])) := by
  refine ⟨rfl, ?_⟩
  intro h
  injection h with h1
  injection h1 with h2
  injection h2 with h3
  simp at h3

/-- C6 (amended): obfuscation round-trip.  For every JSON-serializable
    value `v`, key and secret `S` such that no code unit of
    `JSON.stringify(v)` is (or shifts into) a UTF-16 surrogate,
    `set` with `{encrypt: true, secret: S}` followed by `get` under the
    same configuration returns `v` — both without a TTL (the whole value
    obfuscated) and with a TTL (only the sentinel field's contents
    obfuscated, the stored `ttl` timestamp staying plaintext). -/
theorem c6_obfus_roundtrip (now now2 t : Int) (cfg : GlobalConfig) (k : JStr)
    (v : JVal) (st : Store) (S : Int)
    (hsafe : ∀ u ∈ strV v, surrFree S u = true)
    (httl0 : hasTTLc cfg.ttl = false)
    (ht : 0 < t) (hexp : now2 ≤ now + t * 1000) :
    (get now2 cfg k ⟨.undef, .tru, .undef, some S, false⟩
        (set now cfg k (some v) ⟨.undef, .tru, .undef, some S, false⟩ st).2
      = (.val (some v),
          (set now cfg k (some v) ⟨.undef, .tru, .undef, some S, false⟩ st).2))
    ∧ getItem (prefixKey cfg.pfx k)
        (set now cfg k (some v) ⟨.num t, .tru, .undef, some S, false⟩ st).2
      = some (strV (.jobj [(APX, .jstr (obfusEnc v S)),
          (ttlField, .jnum (now + t * 1000))]))
    ∧ (get now2 cfg k ⟨.num t, .tru, .undef, some S, false⟩
        (set now cfg k (some v) ⟨.num t, .tru, .undef, some S, false⟩ st).2
      = (.val (some v),
          (set now cfg k (some v) ⟨.num t, .tru, .undef, some S, false⟩ st).2)) := by
  have hdecenc := obfusDec_obfusEnc v S hsafe
  have httlT : mergeTtl (TtlOv.num t) cfg.ttl = some t := by
    simp only [mergeTtl]
    rw [if_neg (by omega)]
  constructor
  · -- no TTL: the whole value is obfuscated
    have hset := set_enc now cfg k v ⟨.undef, .tru, .undef, some S, false⟩ st httl0 rfl
    rw [hset]
    have hgi := getItem_setItem_self (prefixKey (mergePfx PfxOv.undef cfg.pfx) k)
      (strV (.jstr (obfusEnc v S))) st
    simp only [get, mergeConf, hgi, parseJson_strV, isObjB, jhas, Bool.false_and,
      Bool.not_false, mergeEncrypt, Bool.or_true, Option.getD_some, hdecenc,
      Bool.false_eq_true, if_false, if_true, strV_ne_nil]
  · constructor
    · -- with TTL: only the sentinel field's contents are obfuscated
      have hset := set_ttl_enc now t cfg k v ⟨.num t, .tru, .undef, some S, false⟩ st
        httlT ht rfl
      rw [hset]
      exact getItem_setItem_self _ _ _
    · -- with TTL: the round trip
      have hset := set_ttl_enc now t cfg k v ⟨.num t, .tru, .undef, some S, false⟩ st
        httlT ht rfl
      rw [hset]
      have hgi := getItem_setItem_self (prefixKey (mergePfx PfxOv.undef cfg.pfx) k)
        (strV (.jobj [(APX, .jstr (obfusEnc v S)), (ttlField, .jnum (now + t * 1000))])) st
      have hexpb : jsGTnum now2 (some (.jnum (now + t * 1000))) = false := by
        simp only [jsGTnum, decide_eq_false_iff_not]
        omega
      simp only [get, mergeConf, hgi, parseJson_strV, isObjB, jhas, hasField,
        Bool.true_and, mergeEncrypt, Bool.or_true, Option.getD_some,
        jget, getField, jset, setField, strV_ne_nil]
      try rw [hdecenc]
      simp [strV_ne_nil, hasField, getField, setField, if_neg apx_ne_ttlField,
        hexpb, hdecenc]

/-- C6 witness. -/
theorem c6_obfus_roundtrip_witness :
    (∀ u ∈ strV (.jstr [65]), surrFree 75 u = true)
    ∧ hasTTLc defaultConfig.ttl = false ∧ (0 : Int) < 2 ∧ (500 : Int) ≤ 0 + 2 * 1000
    ∧ ((get 500 defaultConfig [107] ⟨.undef, .tru, .undef, some 75, false⟩
        (set 0 defaultConfig [107] (some (.jstr [65]))
          ⟨.undef, .tru, .undef, some 75, false⟩ []).2
      = (.val (some (.jstr [65])),
          (set 0 defaultConfig [107] (some (.jstr [65]))
            ⟨.undef, .tru, .undef, some 75, false⟩ []).2))
    ∧ getItem (prefixKey defaultConfig.pfx [107])
        (set 0 defaultConfig [107] (some (.jstr [65]))
          ⟨.num 2, .tru, .undef, some 75, false⟩ []).2
      = some (strV (.jobj [(APX, .jstr (obfusEnc (.jstr [65]) 75)),
          (ttlField, .jnum (0 + 2 * 1000))]))
    ∧ (get 500 defaultConfig [107] ⟨.num 2, .tru, .undef, some 75, false⟩
        (set 0 defaultConfig [107] (some (.jstr [65]))
          ⟨.num 2, .tru, .undef, some 75, false⟩ []).2
      = (.val (some (.jstr [65])),
          (set 0 defaultConfig [107] (some (.jstr [65]))
            ⟨.num 2, .tru, .undef, some 75, false⟩ []).2))) :=
  ⟨by decide, rfl, by norm_num, by norm_num,
    c6_obfus_roundtrip 0 500 2 defaultConfig [107] (.jstr [65]) [] 75
      (by decide) rfl (by norm_num) (by norm_num)⟩

/-- C7: wrong-secret graceful degradation.  For every stored entry that
    parses (in particular every entry this library writes), `get` with
    de-obfuscation configured never raises an uncaught fault; and
    whenever the decrypter fails (wrong secret, or the value was never
    obfuscated), the failure is swallowed and the pre-de-obfuscation
    value is used as-is: for a plain entry `get` returns the parsed item
    itself, and for a TTL-wrapped entry the still-obfuscated sentinel
    payload is returned (or the entry expires as usual). -/
theorem c7_wrong_secret (now : Int) (cfg : GlobalConfig) (key : JStr)
    (lc : LocalConfig) (st : Store) (s : JStr) (item : JVal)
    (hgi : getItem (prefixKey (mergePfx lc.pfx cfg.pfx) key) st = some s)
    (hp : parseJson s = some item) :
    ((get now cfg key lc st).1 ≠ .thrown)
    ∧ ((isObjB item && jhas item APX) = false →
        (lc.decrypt || mergeEncrypt lc.encrypt cfg.encrypt) = true →
        decrypter item (lc.secret.getD cfg.secret) = none →
        get now cfg key lc st = (.val (some item), st))
    ∧ ((isObjB item && jhas item APX) = true →
        (lc.decrypt || mergeEncrypt lc.encrypt cfg.encrypt) = true →
        decrypter ((jget item APX).getD .jnull) (lc.secret.getD cfg.secret) = none →
        get now cfg key lc st
          = (if jsGTnum now (jget item ttlField)
             then (.val none,
                removeItem (prefixKey (mergePfx lc.pfx cfg.pfx) key) st)
             else (.val (jget item APX), st))) := by
  have hsne : s ≠ [] := by
    intro hh
    subst hh
    exact Option.noConfusion (parseJson_nil ▸ hp)
  refine ⟨?_, ?_, ?_⟩
  · simp only [get, mergeConf, hgi, if_neg hsne, hp]
    repeat' split
    all_goals simp
  · intro hnw hde hdf
    simp only [get, mergeConf, hgi, if_neg hsne, hp, hnw, hde, hdf,
      Bool.not_false, if_true, Bool.false_eq_true, if_false]
  · intro hw hde hdf
    simp only [get, mergeConf, hgi, if_neg hsne, hp, hw, hde, hdf,
      Bool.not_true, Bool.false_eq_true, if_false, if_true]

/-- C7 witness: default secret 75 stores `5` obfuscated as the
    single-unit string `"\u0080"`; reading with the wrong secret 99
    makes the decrypter fail and `get` returns the still-obfuscated
    string instead of throwing. -/
theorem c7_wrong_secret_witness :
    getItem (prefixKey (mergePfx (LocalConfig.pfx ⟨.undef, .tru, .undef, some 99, false⟩)
        defaultConfig.pfx) [107])
      (set 0 defaultConfig [107] (some (.jnum 5)) ⟨.undef, .tru, .undef, some 75, false⟩ []).2
      = some (strV (.jstr [128]))
    ∧ parseJson (strV (.jstr [128])) = some (.jstr [128])
    ∧ (isObjB (.jstr [128]) && jhas (.jstr [128]) APX) = false
    ∧ decrypter (.jstr [128]) 99 = none
    ∧ get 0 defaultConfig [107] ⟨.undef, .tru, .undef, some 99, false⟩
        (set 0 defaultConfig [107] (some (.jnum 5))
          ⟨.undef, .tru, .undef, some 75, false⟩ []).2
      = (.val (some (.jstr [128])),
          (set 0 defaultConfig [107] (some (.jnum 5))
            ⟨.undef, .tru, .undef, some 75, false⟩ []).2) :=
  ⟨rfl, rfl, rfl, rfl,
    (c7_wrong_secret 0 defaultConfig [107] ⟨.undef, .tru, .undef, some 99, false⟩
      (set 0 defaultConfig [107] (some (.jnum 5))
        ⟨.undef, .tru, .undef, some 75, false⟩ []).2
      (strV (.jstr [128])) (.jstr [128]) rfl rfl).2.1 rfl rfl rfl⟩

/-- C9 counterexample: the prefix-isolation claim fails as stated for
    values carrying the sentinel field.  With `v1 = {"\u0000": 1}`
    stored under prefix `a:` and `null` under prefix `b:`,
    `get(k, {prefix: "a:"})` returns `1`, not `v1` (the stored value is
    misclassified as TTL-wrapped and unwrapped). -/
theorem c9_counterexample :
    (get 0 defaultConfig [107] ⟨.undef, .undef, .str [97, 58], none, false⟩
        (set 0 defaultConfig [107] (some .jnull)
          ⟨.undef, .undef, .str [98, 58], none, false⟩
          (set 0 defaultConfig [107] (some (.jobj [(APX, .jnum 1)]))
            ⟨.undef, .undef, .str [97, 58], none, false⟩ []).2).2).1
      = .val (some (.jnum 1))
    ∧ GetRes.val (some (.jnum 1)) ≠ .val (some (.jobj [(APX, .jnum 1)])) := by
  refine ⟨rfl, ?_⟩
  intro h
  injection h with h1
  injection h1 with h2
  exact JVal.noConfusion h2

/-- C9 (amended): prefix isolation.  For every key `k` and sentinel-free
    values `v1`, `v2`, storing `v1` under prefix `a:` and `v2` under
    prefix `b:` (default configuration otherwise), each prefixed `get`
    returns its own value; a `clear` with a truthy configured prefix
    deletes exactly the keys starting with that prefix and leaves every
    other key unchanged; and a `clear` with no effective prefix deletes
    every key in the underlying store. -/
theorem c9_prefix_isolation (now now2 : Int) (k : JStr) (v1 v2 : JVal) (st : Store)
    (h1 : (isObjB v1 && jhas v1 APX) = false)
    (h2 : (isObjB v2 && jhas v2 APX) = false) :
    (get now2 defaultConfig k ⟨.undef, .undef, .str [97, 58], none, false⟩
        (set now defaultConfig k (some v2) ⟨.undef, .undef, .str [98, 58], none, false⟩
          (set now defaultConfig k (some v1)
            ⟨.undef, .undef, .str [97, 58], none, false⟩ st).2).2).1
      = .val (some v1)
    ∧ (get now2 defaultConfig k ⟨.undef, .undef, .str [98, 58], none, false⟩
        (set now defaultConfig k (some v2) ⟨.undef, .undef, .str [98, 58], none, false⟩
          (set now defaultConfig k (some v1)
            ⟨.undef, .undef, .str [97, 58], none, false⟩ st).2).2).1
      = .val (some v2)
    ∧ (∀ (cfg : GlobalConfig) (lc : LocalConfig) (st2 : Store) (q k2 : JStr),
        mergePfx lc.pfx cfg.pfx = some q → q ≠ [] →
        getItem k2 (clear cfg lc st2)
          = if q.isPrefixOf k2 then none else getItem k2 st2)
    ∧ (∀ (cfg : GlobalConfig) (lc : LocalConfig) (st2 : Store),
        mergePfx lc.pfx cfg.pfx = none → clear cfg lc st2 = []) := by
  have hsetA := set_plain now defaultConfig k v1
    ⟨.undef, .undef, .str [97, 58], none, false⟩ st rfl rfl
  have hsetB := set_plain now defaultConfig k v2
    ⟨.undef, .undef, .str [98, 58], none, false⟩
    (set now defaultConfig k (some v1)
      ⟨.undef, .undef, .str [97, 58], none, false⟩ st).2 rfl rfl
  have hkeys : ((97 : Nat) :: 58 :: k) ≠ ((98 : Nat) :: 58 :: k) := by simp
  refine ⟨?_, ?_, ?_, ?_⟩
  · have hgiA : getItem ([97, 58] ++ k)
        (set now defaultConfig k (some v2) ⟨.undef, .undef, .str [98, 58], none, false⟩
          (set now defaultConfig k (some v1)
            ⟨.undef, .undef, .str [97, 58], none, false⟩ st).2).2
        = some (strV v1) := by
      rw [hsetB]
      show getItem ([97, 58] ++ k)
        (setItem ([98, 58] ++ k) (strV v2) _) = some (strV v1)
      rw [getItem_setItem_ne ([98, 58] ++ k) ([97, 58] ++ k) (strV v2) hkeys]
      rw [hsetA]
      exact getItem_setItem_self _ _ _
    rw [get_entry_nodecrypt now2 defaultConfig k
      ⟨.undef, .undef, .str [97, 58], none, false⟩ _ v1 rfl rfl hgiA]
    simp [h1]
  · have hgiB : getItem ([98, 58] ++ k)
        (set now defaultConfig k (some v2) ⟨.undef, .undef, .str [98, 58], none, false⟩
          (set now defaultConfig k (some v1)
            ⟨.undef, .undef, .str [97, 58], none, false⟩ st).2).2
        = some (strV v2) := by
      rw [hsetB]
      exact getItem_setItem_self _ _ _
    rw [get_entry_nodecrypt now2 defaultConfig k
      ⟨.undef, .undef, .str [98, 58], none, false⟩ _ v2 rfl rfl hgiB]
    simp [h2]
  · intro cfg lc st2 q k2 hq hqne
    exact getItem_clear_prefixed cfg lc st2 k2 q hq hqne
  · intro cfg lc st2 hq
    exact clear_total cfg lc st2 (Or.inl hq)

/-- C9 witness: values 3 and 4 under prefixes `a:` and `b:`; a scoped
    clear removes the `a:`-key and keeps the `b:`-key; the prefixless
    clear empties the store. -/
theorem c9_prefix_isolation_witness :
    (get 1 defaultConfig [107] ⟨.undef, .undef, .str [97, 58], none, false⟩
        (set 0 defaultConfig [107] (some (.jnum 4))
          ⟨.undef, .undef, .str [98, 58], none, false⟩
          (set 0 defaultConfig [107] (some (.jnum 3))
            ⟨.undef, .undef, .str [97, 58], none, false⟩ []).2).2).1
      = .val (some (.jnum 3))
    ∧ (get 1 defaultConfig [107] ⟨.undef, .undef, .str [98, 58], none, false⟩
        (set 0 defaultConfig [107] (some (.jnum 4))
          ⟨.undef, .undef, .str [98, 58], none, false⟩
          (set 0 defaultConfig [107] (some (.jnum 3))
            ⟨.undef, .undef, .str [97, 58], none, false⟩ []).2).2).1
      = .val (some (.jnum 4))
    ∧ getItem [97, 58, 120]
        (clear defaultConfig ⟨.undef, .undef, .str [97, 58], none, false⟩
          [([97, 58, 120], [49]), ([98, 58, 120], [50])]) = none
    ∧ getItem [98, 58, 120]
        (clear defaultConfig ⟨.undef, .undef, .str [97, 58], none, false⟩
          [([97, 58, 120], [49]), ([98, 58, 120], [50])]) = some [50]
    ∧ clear defaultConfig emptyLC [([97], [49])] = [] := by
  have h := c9_prefix_isolation 0 1 [107] (.jnum 3) (.jnum 4) [] rfl rfl
  refine ⟨h.1, h.2.1, ?_, ?_, h.2.2.2 defaultConfig emptyLC [([97], [49])] rfl⟩
  · have := h.2.2.1 defaultConfig ⟨.undef, .undef, .str [97, 58], none, false⟩
      [([97, 58, 120], [49]), ([98, 58, 120], [50])] [97, 58] [97, 58, 120] rfl (by simp)
    rw [this]
    simp
  · have := h.2.2.1 defaultConfig ⟨.undef, .undef, .str [97, 58], none, false⟩
      [([97, 58, 120], [49]), ([98, 58, 120], [50])] [97, 58] [98, 58, 120] rfl (by simp)
    rw [this]
    simp [getItem]

/-- C10: `get`'s frame effect.  For every key and configuration, either
    `get` leaves the underlying store entirely unchanged, or its only
    mutation is removing the single entry at the effective (prefixed)
    key — and that happens only when the stored entry parses to a
    TTL-wrapped object (sentinel field present) whose `ttl` timestamp
    has passed.  Absent keys, plain entries, unexpired TTL entries,
    de-obfuscation failures and even top-level parse failures all leave
    every key and stored value untouched. -/
theorem c10_get_frame (now : Int) (cfg : GlobalConfig) (key : JStr)
    (lc : LocalConfig) (st : Store) :
    (get now cfg key lc st).2 = st
    ∨ ((get now cfg key lc st).2
        = removeItem (prefixKey (mergePfx lc.pfx cfg.pfx) key) st
      ∧ ∃ s item, getItem (prefixKey (mergePfx lc.pfx cfg.pfx) key) st = some s
          ∧ parseJson s = some item
          ∧ (isObjB item && jhas item APX) = true
          ∧ jsGTnum now (jget item ttlField) = true) := by
  simp only [get, mergeConf]
  split
  · left; rfl
  · rename_i s hgi
    split
    · left; rfl
    · rename_i hs
      split
      · left; rfl
      · rename_i item0 hp
        split
        · left; rfl
        · rename_i hnw
          have hw : (isObjB item0 && jhas item0 APX) = true := by
            revert hnw
            cases (isObjB item0 && jhas item0 APX) <;> simp
          repeat' split
          all_goals
            first
            | (left; rfl)
            | (rename_i hE
               right
               refine ⟨rfl, s, item0, hgi, hp, hw, ?_⟩
               first
               | exact hE
               | (rw [jget_ttlField_after_decrypt item0 (lc.secret.getD cfg.secret)] at hE
                  exact hE))

end LS
